import Mathlib

/-!
Shallow embedding of the Proteus `Session` class
(packages/proteus/src/session/Session.ts) of wire-web-core.

The session object is embedded as a Lean structure; the JavaScript object
`session_states` (string-keyed, insertion ordered) is embedded as an
association list in insertion order.  JavaScript exceptions are embedded by
returning, next to the `Except` result, the session object as it stands at
the moment the function returns or throws (a thrown exception leaves the
mutated `this` behind, so the post-state must be observable on errors too).

The collaborators that are not part of the repository sources
(`SessionState`, `PreKeyStore`, `MemoryUtil.zeroize`) are kept abstract:
`SessionState` is a type parameter together with a record of the operations
`Session` invokes on it, the store is a state-transformer record, and calls
to the store / zeroize are recorded in an event trace.
-/

namespace ProteusSession

/-- Plaintext and serialised blobs are byte lists. -/
abbrev Bytes := List Nat

/-- Public half of an ephemeral curve key pair. -/
structure PublicKey where
  key : Nat
deriving DecidableEq

/-- Public identity key; `fingerprint()` is its stable digest.  Fingerprints
of distinct keys are distinct, so the digest is embedded as the key itself. -/
structure IdentityKey where
  key : Nat
deriving DecidableEq

def IdentityKey.fingerprint (k : IdentityKey) : Nat := k.key

/-- Long-term identity key pair of the local party (secret half is never
inspected by `Session`, so only the public half is carried). -/
structure IdentityKeyPair where
  public_key : IdentityKey
deriving DecidableEq

/-- Ephemeral key pair (only the public half is inspected by `Session`). -/
structure KeyPair where
  public_key : PublicKey
deriving DecidableEq

/-- 16 random bytes; `toString()` (lowercase hex) is the canonical map key.
The byte string and its hex form are both embedded as the same `Nat`, since
hex rendering is injective. -/
structure SessionTag where
  tagBytes : Nat
deriving DecidableEq

/-- The `toString()` form of a tag, used as the key of `session_states`. -/
def SessionTag.name (t : SessionTag) : Nat := t.tagBytes

/-- Locally stored prekey. -/
structure PreKey where
  prekey_id : Nat
  key_pair : KeyPair
deriving DecidableEq

/-- Modelled from the spec: `PreKey.MAX_PREKEY_ID` is the u16 sentinel id of
the last-resort prekey (the `PreKey` class is not among the given sources). -/
def MAX_PREKEY_ID : Nat := 65535

/-- Inner ratchet message. Fields other than the session tag are opaque to
`Session`, collapsed into `body`. -/
structure CipherMessage where
  session_tag : SessionTag
  body : Nat
deriving DecidableEq

/-- Handshake message wrapping a first `CipherMessage`. -/
structure PreKeyMessage where
  prekey_id : Nat
  base_key : PublicKey
  identity_key : IdentityKey
  message : CipherMessage
deriving DecidableEq

/-- The payload variants an envelope can carry; `unknownMsg` stands for any
value that is neither a `CipherMessage` nor a `PreKeyMessage`. -/
inductive Message where
  | cipher (m : CipherMessage)
  | prekey (m : PreKeyMessage)
  | unknownMsg
deriving DecidableEq

/-- Transport envelope. -/
structure Envelope where
  message : Message
deriving DecidableEq

/-- Error values thrown by `Session` and its collaborators.  Constructors
mirror the error classes of the `errors/` module; the `Nat` argument is the
`CASE_xxx` code.  `storeError` stands for an arbitrary error raised by the
prekey store, `jsTypeError` for the TypeError raised by `Array.reduce` on an
empty array. -/
inductive PErr where
  | proteusError (code : Nat)
  | decryptError (code : Nat)
  | invalidMessage (code : Nat)
  | invalidSignature (code : Nat)
  | remoteIdentityChanged (code : Nat)
  | prekeyNotFound (code : Nat)
  | outdatedMessage (code : Nat)
  | duplicateMessage (code : Nat)
  | tooDistantFuture (code : Nat)
  | localIdentityChanged (code : Nat)
  | invalidType (code : Nat)
  | decodeError (code : Nat)
  | storeError (code : Nat)
  | jsTypeError
deriving DecidableEq

/-- The `instanceof DecryptError.InvalidSignature || instanceof
DecryptError.InvalidMessage` test of `_decrypt_prekey_message` (the two are
sibling subclasses of `DecryptError`; no other class matches). -/
def PErr.isRecoverable : PErr → Bool
  | .invalidSignature _ => true
  | .invalidMessage _ => true
  | _ => false

/-- Observable calls to the store and to `MemoryUtil.zeroize`, in call
order. -/
inductive Event where
  | loadPrekey (id : Nat)
  | zeroizePrekey (id : Nat)
  | deletePrekey (id : Nat)
  | zeroizeEntry (name : Nat)
deriving DecidableEq

def Event.isDelete : Event → Bool
  | .deletePrekey _ => true
  | _ => false

def Event.isZeroizePrekey : Event → Bool
  | .zeroizePrekey _ => true
  | _ => false

def Event.isLoad : Event → Bool
  | .loadPrekey _ => true
  | _ => false

/-- One value of the `IntermediateSessionState` record: insertion index,
ratchet state, owning tag. -/
structure StateEntry (σ : Type) where
  idx : Nat
  state : σ
  tag : SessionTag
deriving DecidableEq

/-- The `Session` object.  `session_states` is the JS object in insertion
order, keyed by the string form of the tag. -/
structure Session (σ : Type) where
  local_identity : IdentityKeyPair
  remote_identity : IdentityKey
  version : Nat
  counter : Nat
  pending_prekey : Option (Nat × PublicKey)
  session_states : List (Nat × StateEntry σ)
  session_tag : SessionTag
  session_tag_name : Nat
deriving DecidableEq

def MAX_RECV_CHAINS : Nat := 5
def MAX_SESSION_STATES : Nat := 100

/-- The JS `Number.MAX_SAFE_INTEGER`. -/
def MAX_SAFE_INTEGER : Nat := 9007199254740991

/-- The constructor `new Session(...)` (counter always starts at 0). -/
def mkSession (σ : Type) (localIdentity : IdentityKeyPair) (remoteIdentity : IdentityKey)
    (sessionTag : SessionTag) (pendingPrekey : Option (Nat × PublicKey))
    (sessionStates : List (Nat × StateEntry σ)) (version : Nat) : Session σ where
  local_identity := localIdentity
  remote_identity := remoteIdentity
  version := version
  counter := 0
  pending_prekey := pendingPrekey
  session_states := sessionStates
  session_tag := sessionTag
  session_tag_name := SessionTag.name sessionTag

/-- The operations `Session` invokes on the out-of-scope `SessionState`
collaborator (spec section 6.3).  `decrypt` and `encrypt` return the
mutated state next to their result. -/
structure SSModel (σ : Type) where
  decrypt : σ → Envelope → CipherMessage → Except PErr (Bytes × σ)
  encrypt : σ → IdentityKey → Option (Nat × PublicKey) → SessionTag → Bytes →
      Except PErr (Envelope × σ)
  serialise : σ → Bytes
  deserialise : Bytes → σ
  init_as_bob : IdentityKeyPair → KeyPair → IdentityKey → PublicKey → σ

/-- The out-of-scope `PreKeyStore` collaborator (spec section 6.2), as a
state transformer over a store state `τ`; each call returns its result (or
raised error) together with the store state it leaves behind. -/
structure StoreModel (τ : Type) where
  load_prekey : τ → Nat → Except PErr (Option PreKey) × τ
  delete_prekey : τ → Nat → Except PErr Unit × τ

/-- The world outside the session object: store state plus the trace of
observable collaborator calls. -/
structure Wld (τ : Type) where
  store : τ
  trace : List Event

/-- Result of a session method that touches only the session object:
result-or-error, the session as left behind, zeroize events emitted. -/
structure OpResult (σ : Type) (α : Type) where
  res : Except PErr α
  sess : Session σ
  events : List Event

/-- Result of a session method that also touches the store. -/
structure IOResult (σ τ : Type) (α : Type) where
  res : Except PErr α
  sess : Session σ
  wld : Wld τ

/-- Embeds `Object.prototype.hasOwnProperty` on the states object. -/
def hasKey (l : List (Nat × StateEntry σ)) (k : Nat) : Bool :=
  l.any (fun p => p.1 == k)

/-- Embeds the read `this.session_states[k]`. -/
def lookupEntry (l : List (Nat × StateEntry σ)) (k : Nat) : Option (StateEntry σ) :=
  (l.find? (fun p => p.1 == k)).map (fun p => p.2)

/-- Embeds `this.session_states[k].state = state` (in-place field update keeps the
position, `idx` and `tag` of the entry). -/
def setEntryState (l : List (Nat × StateEntry σ)) (k : Nat) (st : σ) :
    List (Nat × StateEntry σ) :=
  l.map (fun p => if p.1 == k then (p.1, StateEntry.mk p.2.idx st p.2.tag) else p)

/-- The `idx` of the entry at key `k` (keys passed here always exist). -/
def entryIdx (l : List (Nat × StateEntry σ)) (k : Nat) : Nat :=
  ((lookupEntry l k).map (fun e => e.idx)).getD 0

/-- Steps 1-3 of `_insert_session_state`: replace the state in place when
the name of the tag is already a key; otherwise reset map and counter at the
representational maximum of the counter, then append the new entry and bump the
counter. -/
def insertEntry (s : Session σ) (tag : SessionTag) (state : σ) : Session σ :=
  let name := SessionTag.name tag
  if hasKey s.session_states name then
    { s with session_states := setEntryState s.session_states name state }
  else
    let s0 :=
      if MAX_SAFE_INTEGER ≤ s.counter then
        { s with session_states := [], counter := 0 }
      else s
    { s0 with
        session_states := s0.session_states ++ [(name, StateEntry.mk s0.counter state tag)]
        counter := s0.counter + 1 }

/-- Step 4 of `_insert_session_state`: promote the inserted tag to be the
current one when it differs. -/
def promoteTag (s : Session σ) (tag : SessionTag) : Session σ :=
  if s.session_tag_name ≠ SessionTag.name tag then
    { s with session_tag := tag, session_tag_name := SessionTag.name tag }
  else s

/-- Steps 1-4 of `_insert_session_state` (everything before the size
check). -/
def insertPromote (s : Session σ) (tag : SessionTag) (state : σ) : Session σ :=
  promoteTag (insertEntry s tag state) tag

/-- Embeds `_evict_oldest_session_state`: among keys other than the current tag
name, remove the one of smallest `idx` (first such on a tie, matching
`reduce` keeping the accumulator), zeroizing it; on an empty candidate list
`reduce` throws a TypeError. -/
def evict_oldest (s : Session σ) : OpResult σ Unit :=
  match (s.session_states.map Prod.fst).filter (fun k => k != s.session_tag_name) with
  | [] => OpResult.mk (.error .jsTypeError) s []
  | c :: cs =>
    let oldest := cs.foldl
      (fun lowest obj =>
        if entryIdx s.session_states obj < entryIdx s.session_states lowest then obj
        else lowest) c
    OpResult.mk (.ok ())
      { s with session_states := s.session_states.filter (fun p => p.1 != oldest) }
      [Event.zeroizeEntry oldest]

/-- Embeds `_insert_session_state`: after the insertion/promotion steps, evict when
the map holds at least `MAX_SESSION_STATES` entries. -/
def insert_session_state (s : Session σ) (tag : SessionTag) (state : σ) : OpResult σ Unit :=
  let s2 := insertPromote s tag state
  if s2.session_states.length < MAX_SESSION_STATES then OpResult.mk (.ok ()) s2 []
  else evict_oldest s2

/-- Embeds `_new_state`: load the prekey named by the message; found, build a state
via `init_as_bob`; missing, throw `ProteusError(CASE_101)`.  The session is
never mutated. -/
def new_state (sm : SSModel σ) (stm : StoreModel τ) (s : Session σ) (w : Wld τ)
    (msg : PreKeyMessage) : Except PErr σ × Wld τ :=
  let r := stm.load_prekey w.store msg.prekey_id
  let w1 : Wld τ := Wld.mk r.2 (w.trace ++ [Event.loadPrekey msg.prekey_id])
  match r.1 with
  | .error e => (.error e, w1)
  | .ok none => (.error (PErr.proteusError 101), w1)
  | .ok (some pk) =>
      (.ok (sm.init_as_bob s.local_identity pk.key_pair msg.identity_key msg.base_key), w1)

/-- Embeds `_decrypt_cipher_message`: look the state up by the message tag, deep
clone it through serialise/deserialise, decrypt the clone, and only on
success clear `pending_prekey` and commit the clone via
`_insert_session_state`. -/
def decrypt_cipher_message (sm : SSModel σ) (s : Session σ) (envelope : Envelope)
    (msg : CipherMessage) : OpResult σ Bytes :=
  match lookupEntry s.session_states (SessionTag.name msg.session_tag) with
  | none => OpResult.mk (.error (PErr.invalidMessage 205)) s []
  | some entry =>
    let sessionState := sm.deserialise (sm.serialise entry.state)
    match sm.decrypt sessionState envelope msg with
    | .error e => OpResult.mk (.error e) s []
    | .ok pr =>
      let s1 : Session σ := { s with pending_prekey := none }
      let r := insert_session_state s1 msg.session_tag pr.2
      match r.res with
      | .ok _ => OpResult.mk (.ok pr.1) r.sess r.events
      | .error e => OpResult.mk (.error e) r.sess r.events

/-- The recovery branch of `_decrypt_prekey_message` (the body of the
`catch` when the caught error is recoverable): derive a fresh state, decrypt
with it, consume the prekey unless it is the last-resort one (a delete
failure propagates raw), then insert the state and clear
`pending_prekey`. -/
def recover_prekey_message (sm : SSModel σ) (stm : StoreModel τ) (s : Session σ)
    (w : Wld τ) (envelope : Envelope) (msg : PreKeyMessage) : IOResult σ τ Bytes :=
  match new_state sm stm s w msg with
  | (.error e, w1) => IOResult.mk (.error e) s w1
  | (.ok state, w1) =>
    match sm.decrypt state envelope msg.message with
    | .error e => IOResult.mk (.error e) s w1
    | .ok pr =>
      let fin : Wld τ → IOResult σ τ Bytes := fun wf =>
        let r := insert_session_state s msg.message.session_tag pr.2
        match r.res with
        | .error e => IOResult.mk (.error e) r.sess (Wld.mk wf.store (wf.trace ++ r.events))
        | .ok _ =>
          IOResult.mk (.ok pr.1) { r.sess with pending_prekey := none }
            (Wld.mk wf.store (wf.trace ++ r.events))
      if msg.prekey_id ≠ MAX_PREKEY_ID then
        let l := stm.load_prekey w1.store msg.prekey_id
        let w2 : Wld τ := Wld.mk l.2 (w1.trace ++ [Event.loadPrekey msg.prekey_id])
        match l.1 with
        | .error e => IOResult.mk (.error e) s w2
        | .ok _pk =>
          let w3 : Wld τ := Wld.mk w2.store (w2.trace ++ [Event.zeroizePrekey msg.prekey_id])
          let d := stm.delete_prekey w3.store msg.prekey_id
          let w4 : Wld τ := Wld.mk d.2 (w3.trace ++ [Event.deletePrekey msg.prekey_id])
          match d.1 with
          | .error e => IOResult.mk (.error e) s w4
          | .ok _ => fin w4
      else fin w1

/-- Embeds `_decrypt_prekey_message`: first try the existing-state branch; a
recoverable failure (and only such) enters the recovery branch; any other
error is re-raised unchanged. -/
def decrypt_prekey_message (sm : SSModel σ) (stm : StoreModel τ) (s : Session σ)
    (w : Wld τ) (envelope : Envelope) (msg : PreKeyMessage) : IOResult σ τ Bytes :=
  let first := decrypt_cipher_message sm s envelope msg.message
  match first.res with
  | .ok plaintext =>
    IOResult.mk (.ok plaintext) first.sess (Wld.mk w.store (w.trace ++ first.events))
  | .error e =>
    if e.isRecoverable then
      recover_prekey_message sm stm first.sess (Wld.mk w.store (w.trace ++ first.events))
        envelope msg
    else
      IOResult.mk (.error e) first.sess (Wld.mk w.store (w.trace ++ first.events))

/-- Embeds `Session.decrypt`: dispatch on the payload of the envelope; a `PreKeyMessage`
is first checked against the pinned remote identity fingerprint. -/
def Session.decrypt (sm : SSModel σ) (stm : StoreModel τ) (s : Session σ) (w : Wld τ)
    (envelope : Envelope) : IOResult σ τ Bytes :=
  match envelope.message with
  | .cipher m =>
    let r := decrypt_cipher_message sm s envelope m
    IOResult.mk r.res r.sess (Wld.mk w.store (w.trace ++ r.events))
  | .prekey m =>
    if IdentityKey.fingerprint m.identity_key ≠ IdentityKey.fingerprint s.remote_identity then
      IOResult.mk (.error (PErr.remoteIdentityChanged 204)) s w
    else
      decrypt_prekey_message sm stm s w envelope m
  | .unknownMsg => IOResult.mk (.error (PErr.decryptError 200)) s w

/-- Embeds `Session.encrypt`: delegate to the state of the current tag (mutating it in
place); no map restructuring, no eviction, `pending_prekey` untouched. -/
def Session.encrypt (sm : SSModel σ) (s : Session σ) (plaintext : Bytes) :
    Except PErr Envelope × Session σ :=
  match lookupEntry s.session_states s.session_tag_name with
  | none => (.error (PErr.proteusError 102), s)
  | some entry =>
    match sm.encrypt entry.state s.local_identity.public_key s.pending_prekey
        s.session_tag plaintext with
    | .error e => (.error e, s)
    | .ok pr =>
      (.ok pr.1,
        { s with session_states := setEntryState s.session_states s.session_tag_name pr.2 })

/-- Embeds `Session.init_from_message`: build a fresh session from an inbound
`PreKeyMessage`, decrypt the first message, then consume the prekey (load,
zeroize, delete) unless `prekey_id` is at least `MAX_PREKEY_ID`; a delete
failure is wrapped as `PrekeyNotFound(CASE_203)`.  A thrown error discards
the partially built session. -/
def init_from_message (sm : SSModel σ) (stm : StoreModel τ) (ourIdentity : IdentityKeyPair)
    (w : Wld τ) (envelope : Envelope) : Except PErr (Session σ × Bytes) × Wld τ :=
  match envelope.message with
  | .cipher _ => (.error (PErr.invalidMessage 201), w)
  | .unknownMsg => (.error (PErr.invalidMessage 202), w)
  | .prekey msg =>
    let session := mkSession σ ourIdentity msg.identity_key msg.message.session_tag none [] 1
    match new_state sm stm session w msg with
    | (.error e, w1) => (.error e, w1)
    | (.ok state, w1) =>
      match sm.decrypt state envelope msg.message with
      | .error e => (.error e, w1)
      | .ok pr =>
        let r := insert_session_state session msg.message.session_tag pr.2
        match r.res with
        | .error e => (.error e, Wld.mk w1.store (w1.trace ++ r.events))
        | .ok _ =>
          if msg.prekey_id < MAX_PREKEY_ID then
            let l := stm.load_prekey w1.store msg.prekey_id
            let w2 : Wld τ :=
              Wld.mk l.2 (w1.trace ++ r.events ++ [Event.loadPrekey msg.prekey_id])
            match l.1 with
            | .error e => (.error e, w2)
            | .ok _pk =>
              let w3 : Wld τ := Wld.mk w2.store (w2.trace ++ [Event.zeroizePrekey msg.prekey_id])
              let d := stm.delete_prekey w3.store msg.prekey_id
              let w4 : Wld τ := Wld.mk d.2 (w3.trace ++ [Event.deletePrekey msg.prekey_id])
              match d.1 with
              | .error _e => (.error (PErr.prekeyNotFound 203), w4)
              | .ok _ => (.ok (r.sess, pr.1), w4)
          else (.ok (r.sess, pr.1), Wld.mk w1.store (w1.trace ++ r.events))

/-!
Canonical codec.  The CBOR stream written by `Session.encode` is embedded as
a list of typed tokens: map headers, unsigned ints (`u8` and `u16` write the
same CBOR major type, so one token covers both), the null marker, and the
sub-encodings `Session` delegates (tags, identity keys, public keys, and the
opaque `SessionState` encoding, carried as the serialised bytes of the state).
-/

/-- One CBOR data item at the granularity the codec of `Session` observes. -/
inductive Tok (σ : Type) where
  | objHdr (n : Nat)
  | uint (n : Nat)
  | nullTok
  | tagTok (t : SessionTag)
  | ikTok (k : IdentityKey)
  | pkTok (k : PublicKey)
  | ssTok (b : Bytes)
deriving DecidableEq

/-- Embeds `Session.encode` (and thereby `serialise`): six tagged fields in
ascending tag order, then the states map as alternating tag/state items. -/
def Session.encode (sm : SSModel σ) (s : Session σ) : List (Tok σ) :=
  [Tok.objHdr 6, Tok.uint 0, Tok.uint s.version, Tok.uint 1, Tok.tagTok s.session_tag,
   Tok.uint 2, Tok.ikTok s.local_identity.public_key, Tok.uint 3, Tok.ikTok s.remote_identity,
   Tok.uint 4] ++
  (match s.pending_prekey with
   | some pp => [Tok.objHdr 2, Tok.uint 0, Tok.uint pp.1, Tok.uint 1, Tok.pkTok pp.2]
   | none => [Tok.nullTok]) ++
  [Tok.uint 5, Tok.objHdr s.session_states.length] ++
  (s.session_states.map
    (fun p => [Tok.tagTok p.2.tag, Tok.ssTok (sm.serialise p.2.state)])).flatten

/-- Embeds `decoder.object()`. -/
def readObj : List (Tok σ) → Except PErr (Nat × List (Tok σ))
  | Tok.objHdr n :: r => .ok (n, r)
  | _ => .error (PErr.decodeError 0)

/-- Embeds `decoder.u8()` and `decoder.u16()` (one CBOR unsigned type underlies
both). -/
def readUint : List (Tok σ) → Except PErr (Nat × List (Tok σ))
  | Tok.uint n :: r => .ok (n, r)
  | _ => .error (PErr.decodeError 1)

/-- Embeds `SessionTag.decode`. -/
def readTag : List (Tok σ) → Except PErr (SessionTag × List (Tok σ))
  | Tok.tagTok t :: r => .ok (t, r)
  | _ => .error (PErr.decodeError 2)

/-- Embeds `IdentityKey.decode`. -/
def readIk : List (Tok σ) → Except PErr (IdentityKey × List (Tok σ))
  | Tok.ikTok k :: r => .ok (k, r)
  | _ => .error (PErr.decodeError 3)

/-- Embeds `PublicKey.decode`. -/
def readPk : List (Tok σ) → Except PErr (PublicKey × List (Tok σ))
  | Tok.pkTok k :: r => .ok (k, r)
  | _ => .error (PErr.decodeError 4)

/-- Embeds `SessionState.decode`: it reads the own encoding of the state; it is carried as
one opaque token. -/
def readSS : List (Tok σ) → Except PErr (Bytes × List (Tok σ))
  | Tok.ssTok b :: r => .ok (b, r)
  | _ => .error (PErr.decodeError 5)

/-- Embeds `decoder.optional(() => decoder.object())`: a null marker consumes the null
marker and yields nothing, otherwise the closure runs. -/
def readOptObj : List (Tok σ) → Except PErr (Option Nat × List (Tok σ))
  | Tok.nullTok :: r => .ok (none, r)
  | Tok.objHdr n :: r => .ok (some n, r)
  | _ => .error (PErr.decodeError 6)

/-- Embeds `decoder.skip()` of the `default:` arm (skips the data of the unknown field
item; unknown tags never occur in streams this codec itself produced, where
a full CBOR skip and dropping one token agree). -/
def skipTok : List (Tok σ) → List (Tok σ) :=
  fun l => l.drop 1

/-- One iteration of the two-round key loop of the pending-prekey decoder:
tag 0 reads the u16 id, tag 1 reads the public key, any other tag assigns
nothing. -/
def readPendingKey (p : Option Nat × Option PublicKey) (toks : List (Tok σ)) :
    Except PErr ((Option Nat × Option PublicKey) × List (Tok σ)) :=
  match readUint toks with
  | .error e => .error e
  | .ok tr =>
    if tr.1 = 0 then
      match readUint tr.2 with
      | .error e => .error e
      | .ok vr => .ok ((some vr.1, p.2), vr.2)
    else if tr.1 = 1 then
      match readPk tr.2 with
      | .error e => .error e
      | .ok kr => .ok ((p.1, some kr.1), kr.2)
    else .ok (p, tr.2)

/-- The JS decoder leaves a partially assigned `pendingPrekey` array when a
key round assigned nothing; such a stream is never produced by `encode`, and
the partial value is embedded as `none`. -/
def pendingOfPair : Option Nat × Option PublicKey → Option (Nat × PublicKey)
  | (some i, some k) => some (i, k)
  | _ => none

/-- The states-map loop of tag 5: `nprops` rounds, each reading a tag and a
state and storing the entry under the string form of the tag with `idx` equal to
the iteration index (overwriting in place on a duplicate tag, as a JS object
assignment does). -/
def decodeStates (sm : SSModel σ) :
    Nat → Nat → List (Tok σ) → List (Nat × StateEntry σ) →
    Except PErr (List (Nat × StateEntry σ) × List (Tok σ))
  | 0, _, toks, acc => .ok (acc, toks)
  | n + 1, i, toks, acc =>
    match readTag toks with
    | .error e => .error e
    | .ok tr =>
      match readSS tr.2 with
      | .error e => .error e
      | .ok br =>
        let entry := StateEntry.mk i (sm.deserialise br.1) tr.1
        let name := SessionTag.name tr.1
        let acc2 :=
          if hasKey acc name then
            acc.map (fun p => if p.1 == name then (name, entry) else p)
          else acc ++ [(name, entry)]
        decodeStates sm n (i + 1) br.2 acc2

/-- Decoded-so-far fields of `Session.decode` (`none` is the JS
`undefined`). -/
structure DecAcc (σ : Type) where
  version : Option Nat
  sessionTag : Option SessionTag
  remoteIdentity : Option IdentityKey
  pendingPrekey : Option (Nat × PublicKey)
  sessionStates : List (Nat × StateEntry σ)

/-- The tagged-field loop of `Session.decode`: read the declared number of
fields, dispatching on each small-int tag; tag 2 checks the embedded local
identity fingerprint against the one supplied by the caller and then discards the decoded key;
unknown tags are skipped. -/
def decodeProps (sm : SSModel σ) (localIdentity : IdentityKeyPair) :
    Nat → List (Tok σ) → DecAcc σ → Except PErr (DecAcc σ × List (Tok σ))
  | 0, toks, acc => .ok (acc, toks)
  | n + 1, toks, acc =>
    match readUint toks with
    | .error e => .error e
    | .ok tr =>
      if tr.1 = 0 then
        match readUint tr.2 with
        | .error e => .error e
        | .ok vr => decodeProps sm localIdentity n vr.2 { acc with version := some vr.1 }
      else if tr.1 = 1 then
        match readTag tr.2 with
        | .error e => .error e
        | .ok str => decodeProps sm localIdentity n str.2 { acc with sessionTag := some str.1 }
      else if tr.1 = 2 then
        match readIk tr.2 with
        | .error e => .error e
        | .ok ir =>
          if IdentityKey.fingerprint localIdentity.public_key ≠ IdentityKey.fingerprint ir.1 then
            .error (PErr.localIdentityChanged 300)
          else decodeProps sm localIdentity n ir.2 acc
      else if tr.1 = 3 then
        match readIk tr.2 with
        | .error e => .error e
        | .ok ir => decodeProps sm localIdentity n ir.2 { acc with remoteIdentity := some ir.1 }
      else if tr.1 = 4 then
        match readOptObj tr.2 with
        | .error e => .error e
        | .ok orr =>
          match orr.1 with
          | none => decodeProps sm localIdentity n orr.2 { acc with pendingPrekey := none }
          | some 2 =>
            match readPendingKey (σ := σ) (none, none) orr.2 with
            | .error e => .error e
            | .ok p1 =>
              match readPendingKey p1.1 p1.2 with
              | .error e => .error e
              | .ok p2 =>
                decodeProps sm localIdentity n p2.2
                  { acc with pendingPrekey := pendingOfPair p2.1 }
          | some _ => .error (PErr.invalidType 301)
      else if tr.1 = 5 then
        match readObj tr.2 with
        | .error e => .error e
        | .ok nr =>
          match decodeStates sm nr.1 0 nr.2 [] with
          | .error e => .error e
          | .ok str => decodeProps sm localIdentity n str.2 { acc with sessionStates := str.1 }
      else decodeProps sm localIdentity n (skipTok tr.2) acc

/-- Embeds `Session.decode` (and thereby `deserialise`).  `freshTag` stands for the
random `new SessionTag()` the constructor default generates when the
stream carried no tag-1 field; the missing-version and missing-pending
defaults are 1 and null.  A missing remote identity is rejected. -/
def Session.decode (sm : SSModel σ) (freshTag : SessionTag)
    (localIdentity : IdentityKeyPair) (toks : List (Tok σ)) :
    Except PErr (Session σ × List (Tok σ)) :=
  match readObj toks with
  | .error e => .error e
  | .ok pr =>
    match decodeProps sm localIdentity pr.1 pr.2
        (DecAcc.mk none none none none []) with
    | .error e => .error e
    | .ok ar =>
      match ar.1.remoteIdentity with
      | none => .error (PErr.decodeError 302)
      | some ri =>
        .ok (mkSession σ localIdentity ri (ar.1.sessionTag.getD freshTag)
              ar.1.pendingPrekey ar.1.sessionStates (ar.1.version.getD 1), ar.2)

/-!
Concrete collaborator instances used to evaluate the theorems on concrete
inputs.  States are naturals; serialisation is the singleton byte list, so
the serialise/deserialise round trip is the identity.
-/

/-- States always decrypt successfully. -/
def toySM : SSModel Nat where
  decrypt := fun st _ _ => .ok ([st], st + 1)
  encrypt := fun st _ _ t _ => .ok (Envelope.mk (Message.cipher (CipherMessage.mk t 0)), st)
  serialise := fun st => [st]
  deserialise := fun b => b.headD 0
  init_as_bob := fun _ _ _ _ => 7

/-- States always fail to decrypt with a non-recoverable error. -/
def toySMdup : SSModel Nat where
  decrypt := fun _ _ _ => .error (PErr.duplicateMessage 209)
  encrypt := fun st _ _ t _ => .ok (Envelope.mk (Message.cipher (CipherMessage.mk t 0)), st)
  serialise := fun st => [st]
  deserialise := fun b => b.headD 0
  init_as_bob := fun _ _ _ _ => 7

/-- The zero state fails recoverably; fresh states (value 7) decrypt. -/
def toySMrec : SSModel Nat where
  decrypt := fun st _ _ => if st = 0 then .error (PErr.invalidMessage 0) else .ok ([st], st)
  encrypt := fun st _ _ t _ => .ok (Envelope.mk (Message.cipher (CipherMessage.mk t 0)), st)
  serialise := fun st => [st]
  deserialise := fun b => b.headD 0
  init_as_bob := fun _ _ _ _ => 7

/-- A store holding every prekey; deletion succeeds. -/
def toyStore : StoreModel Unit where
  load_prekey := fun u i => (.ok (some (PreKey.mk i (KeyPair.mk (PublicKey.mk 0)))), u)
  delete_prekey := fun u _ => (.ok (), u)

/-- A store holding every prekey; deletion always fails. -/
def toyStoreDelFail : StoreModel Unit where
  load_prekey := fun u i => (.ok (some (PreKey.mk i (KeyPair.mk (PublicKey.mk 0)))), u)
  delete_prekey := fun u _ => (.error (PErr.storeError 9), u)

def w0 : Wld Unit := Wld.mk () []

def tagA : SessionTag := SessionTag.mk 1

def tagB : SessionTag := SessionTag.mk 2

def idKeyR : IdentityKey := IdentityKey.mk 5

def idPairL : IdentityKeyPair := IdentityKeyPair.mk (IdentityKey.mk 4)

/-- A session with one state entry under `tagA`. -/
def sessOne : Session Nat where
  local_identity := idPairL
  remote_identity := idKeyR
  version := 1
  counter := 1
  pending_prekey := some (3, PublicKey.mk 8)
  session_states := [(1, StateEntry.mk 0 10 tagA)]
  session_tag := tagA
  session_tag_name := 1

/-- A session with two state entries, current tag `tagB`. -/
def sessTwo : Session Nat where
  local_identity := idPairL
  remote_identity := idKeyR
  version := 1
  counter := 2
  pending_prekey := none
  session_states := [(1, StateEntry.mk 0 10 tagA), (2, StateEntry.mk 1 11 tagB)]
  session_tag := tagB
  session_tag_name := 2

/-- A freshly constructed session (empty map). -/
def sessEmpty : Session Nat := mkSession Nat idPairL idKeyR tagA none [] 1

/-!
Invariants and helper lemmas.
-/

/-- The JS object backing `session_states` has pairwise distinct keys; the
association-list embedding carries that as an invariant. -/
def WfKeys (s : Session σ) : Prop := (s.session_states.map Prod.fst).Nodup

/-- Spec invariant 1: the map holds at most `MAX_SESSION_STATES` entries. -/
def SizeInv (s : Session σ) : Prop :=
  s.session_states.length ≤ MAX_SESSION_STATES

/-!
Reachability: the sessions producible through the public interface.  Both
factories start from a constructor-built session with an empty map and
channel every mutation through `_insert_session_state`, `encrypt` and
`decrypt`; the steps below are closed over arbitrary collaborator
behaviour.
-/

inductive Reachable (sm : SSModel σ) : Session σ → Prop where
  | init (s : Session σ) : s.session_states = [] → Reachable sm s
  | insertStep (s : Session σ) (t : SessionTag) (st : σ) :
      Reachable sm s → Reachable sm (insert_session_state s t st).sess
  | encryptStep (s : Session σ) (pt : Bytes) :
      Reachable sm s → Reachable sm (Session.encrypt sm s pt).2
  | decryptStep {τ : Type} (stm : StoreModel τ) (s : Session σ) (w : Wld τ)
      (env : Envelope) :
      Reachable sm s → Reachable sm (Session.decrypt sm stm s w env).sess

def envCipherA : Envelope := Envelope.mk (Message.cipher (CipherMessage.mk tagA 0))

def m5 : PreKeyMessage := PreKeyMessage.mk 3 (PublicKey.mk 9) idKeyR (CipherMessage.mk tagB 0)

def env5 : Envelope := Envelope.mk (Message.prekey m5)

/-- The effect of the decode tag-5 loop on the entries it rebuilds: each
`idx` of each entry becomes its iteration index, everything else is kept. -/
def reindexFrom (i : Nat) : List (Nat × StateEntry σ) → List (Nat × StateEntry σ)
  | [] => []
  | p :: r => (p.1, StateEntry.mk i p.2.state p.2.tag) :: reindexFrom (i + 1) r

/-- Spec invariant 3: the `idx` of every entry is strictly below the private
counter. -/
def IdxInv (s : Session σ) : Prop :=
  ∀ p ∈ s.session_states, p.2.idx < s.counter


theorem keys_setEntryState (l : List (Nat × StateEntry σ)) (k : Nat) (st : σ) :
    (setEntryState l k st).map Prod.fst = l.map Prod.fst := by
  simp only [setEntryState, List.map_map]
  apply List.map_congr_left
  intro p _
  simp only [Function.comp_apply]
  split <;> rfl

theorem length_setEntryState (l : List (Nat × StateEntry σ)) (k : Nat) (st : σ) :
    (setEntryState l k st).length = l.length := by
  unfold setEntryState
  exact List.length_map l _

theorem promoteTag_tag_name (s : Session σ) (t : SessionTag) :
    (promoteTag s t).session_tag_name = SessionTag.name t := by
  unfold promoteTag
  split
  · rfl
  · next h => exact not_not.mp h

theorem promoteTag_states (s : Session σ) (t : SessionTag) :
    (promoteTag s t).session_states = s.session_states := by
  unfold promoteTag
  split <;> rfl

theorem promoteTag_pending (s : Session σ) (t : SessionTag) :
    (promoteTag s t).pending_prekey = s.pending_prekey := by
  unfold promoteTag
  split <;> rfl

theorem promoteTag_counter (s : Session σ) (t : SessionTag) :
    (promoteTag s t).counter = s.counter := by
  unfold promoteTag
  split <;> rfl

theorem insertEntry_pending (s : Session σ) (t : SessionTag) (st : σ) :
    (insertEntry s t st).pending_prekey = s.pending_prekey := by
  unfold insertEntry
  dsimp only
  split
  · rfl
  · split <;> rfl

theorem hasKey_iff_mem (l : List (Nat × StateEntry σ)) (k : Nat) :
    hasKey l k = true ↔ k ∈ l.map Prod.fst := by
  unfold hasKey
  rw [List.any_eq_true]
  constructor
  · rintro ⟨p, hp, he⟩
    have he2 : p.1 = k := by simpa using he
    exact List.mem_map.mpr ⟨p, hp, he2⟩
  · intro hm
    rcases List.mem_map.mp hm with ⟨p, hp, he⟩
    exact ⟨p, hp, by simp [he]⟩

theorem insertEntry_keys_nodup (s : Session σ) (t : SessionTag) (st : σ)
    (h : WfKeys s) : ((insertEntry s t st).session_states.map Prod.fst).Nodup := by
  unfold insertEntry
  dsimp only
  split
  · rw [keys_setEntryState]; exact h
  · next hk =>
    split
    · simp
    · have hk2 : SessionTag.name t ∉ s.session_states.map Prod.fst := by
        intro hmem
        exact hk ((hasKey_iff_mem _ _).mpr hmem)
      simpa [List.nodup_append] using And.intro h hk2

theorem insertEntry_length_le (s : Session σ) (t : SessionTag) (st : σ) :
    (insertEntry s t st).session_states.length ≤ s.session_states.length + 1 := by
  unfold insertEntry
  dsimp only
  split
  · rw [length_setEntryState]; omega
  · split
    · simp
    · simp

theorem insertPromote_tag_name (s : Session σ) (t : SessionTag) (st : σ) :
    (insertPromote s t st).session_tag_name = SessionTag.name t :=
  promoteTag_tag_name _ _

theorem insertPromote_pending (s : Session σ) (t : SessionTag) (st : σ) :
    (insertPromote s t st).pending_prekey = s.pending_prekey := by
  unfold insertPromote
  rw [promoteTag_pending]
  exact insertEntry_pending s t st

theorem insertPromote_keys_nodup (s : Session σ) (t : SessionTag) (st : σ)
    (h : WfKeys s) : ((insertPromote s t st).session_states.map Prod.fst).Nodup := by
  unfold insertPromote
  rw [promoteTag_states]
  exact insertEntry_keys_nodup s t st h

theorem insertPromote_length_le (s : Session σ) (t : SessionTag) (st : σ) :
    (insertPromote s t st).session_states.length ≤ s.session_states.length + 1 := by
  unfold insertPromote
  rw [promoteTag_states]
  exact insertEntry_length_le s t st

/-- The result of the `reduce`-style fold is one of the candidates. -/
theorem foldl_min_mem (f : Nat → Nat) (cs : List Nat) (c : Nat) :
    cs.foldl (fun lowest obj => if f obj < f lowest then obj else lowest) c ∈ c :: cs := by
  induction cs generalizing c with
  | nil => simp
  | cons d ds ih =>
    rw [List.foldl_cons]
    have step := ih (if f d < f c then d else c)
    rcases List.mem_cons.mp step with h | h
    · rw [h]
      split
      · exact List.mem_cons.mpr (Or.inr (List.mem_cons.mpr (Or.inl rfl)))
      · exact List.mem_cons.mpr (Or.inl rfl)
    · exact List.mem_cons.mpr (Or.inr (List.mem_cons.mpr (Or.inr h)))

/-- The fold result has minimal `f`-value among the candidates. -/
theorem foldl_min_le (f : Nat → Nat) (cs : List Nat) (c : Nat) :
    ∀ x ∈ c :: cs,
      f (cs.foldl (fun lowest obj => if f obj < f lowest then obj else lowest) c) ≤ f x := by
  induction cs generalizing c with
  | nil =>
    intro x hx
    simp at hx
    simp [hx]
  | cons d ds ih =>
    intro x hx
    rw [List.foldl_cons]
    have hmin1 : f (if f d < f c then d else c) ≤ f c := by split <;> omega
    have hmin2 : f (if f d < f c then d else c) ≤ f d := by split <;> omega
    have hstep := ih (if f d < f c then d else c) _ (List.mem_cons_self _ _)
    rcases List.mem_cons.mp hx with h | h
    · subst h
      exact le_trans hstep hmin1
    · rcases List.mem_cons.mp h with h2 | h2
      · subst h2
        exact le_trans hstep hmin2
      · exact ih (if f d < f c then d else c) x (List.mem_cons.mpr (Or.inr h2))

/-- Removing one existing key from a Nodup-keyed association list removes
exactly one pair. -/
theorem filter_key_length (l : List (Nat × StateEntry σ)) (k : Nat)
    (hnd : (l.map Prod.fst).Nodup) (hk : k ∈ l.map Prod.fst) :
    (l.filter (fun p => p.1 != k)).length + 1 = l.length := by
  induction l with
  | nil => simp at hk
  | cons a l ih =>
    simp only [List.map_cons, List.nodup_cons] at hnd
    rw [List.map_cons] at hk
    rcases List.mem_cons.mp hk with h | h
    · have hnotin : ∀ p ∈ l, (p.1 != k) = true := by
        intro p hp
        have hmem : p.1 ∈ l.map Prod.fst := List.mem_map.mpr ⟨p, hp, rfl⟩
        have hne : p.1 ≠ k := fun he => hnd.1 (h ▸ he ▸ hmem)
        simpa using hne
      rw [List.filter_cons_of_neg (by simp [h]), List.filter_eq_self.mpr hnotin]
      simp
    · have hne : a.1 ≠ k := fun he => hnd.1 (he.symm ▸ h)
      rw [List.filter_cons_of_pos (by simpa using hne)]
      simp only [List.length_cons]
      rw [ih hnd.2 h]

/-- A Nodup list keeps at least all but one element when one value is
filtered away. -/
theorem filter_ne_length_ge (l : List Nat) (c : Nat) (hnd : l.Nodup) :
    l.length ≤ (l.filter (fun k => k != c)).length + 1 := by
  induction l with
  | nil => simp
  | cons a l ih =>
    simp only [List.nodup_cons] at hnd
    by_cases h : a = c
    · subst h
      have hnotin : ∀ x ∈ l, (x != a) = true := by
        intro x hx
        have : x ≠ a := fun he => hnd.1 (he ▸ hx)
        simpa using this
      rw [List.filter_cons_of_neg (by simp)]
      rw [List.filter_eq_self.mpr hnotin]
      simp
    · rw [List.filter_cons_of_pos (by simpa using h)]
      simp only [List.length_cons]
      have := ih hnd.2
      omega

/-- On a non-empty candidate list, eviction succeeds, removes exactly the
minimal key of the fold, and zeroizes it. -/
theorem evict_oldest_of_nonempty (s : Session σ) (c : Nat) (cs : List Nat)
    (hc : (s.session_states.map Prod.fst).filter (fun k => k != s.session_tag_name) = c :: cs) :
    (evict_oldest s).res = .ok () ∧
    (evict_oldest s).sess =
      { s with
          session_states := s.session_states.filter
            (fun p => p.1 != cs.foldl
              (fun lowest obj =>
                if entryIdx s.session_states obj < entryIdx s.session_states lowest then obj
                else lowest) c) } ∧
    (evict_oldest s).events =
      [Event.zeroizeEntry (cs.foldl
        (fun lowest obj =>
          if entryIdx s.session_states obj < entryIdx s.session_states lowest then obj
          else lowest) c)] := by
  unfold evict_oldest
  rw [hc]
  exact ⟨rfl, rfl, rfl⟩

/-- On an empty candidate list, `reduce` throws and the session is left as
it is (the mutating statements come after the `reduce`). -/
theorem evict_oldest_of_empty (s : Session σ)
    (hc : (s.session_states.map Prod.fst).filter (fun k => k != s.session_tag_name) = []) :
    evict_oldest s = OpResult.mk (.error .jsTypeError) s [] := by
  unfold evict_oldest
  rw [hc]

theorem evict_oldest_pending (s : Session σ) :
    (evict_oldest s).sess.pending_prekey = s.pending_prekey := by
  unfold evict_oldest
  split <;> rfl

theorem evict_oldest_counter (s : Session σ) :
    (evict_oldest s).sess.counter = s.counter := by
  unfold evict_oldest
  split <;> rfl

theorem evict_oldest_keys_sublist (s : Session σ) :
    (evict_oldest s).sess.session_states.map Prod.fst |>.Sublist
      (s.session_states.map Prod.fst) := by
  unfold evict_oldest
  split
  · exact List.Sublist.refl _
  · exact List.Sublist.map Prod.fst (List.filter_sublist _)

theorem evict_oldest_length_le (s : Session σ) :
    (evict_oldest s).sess.session_states.length ≤ s.session_states.length := by
  unfold evict_oldest
  split
  · exact Nat.le_refl _
  · exact List.length_filter_le _ _

/-- With pairwise distinct keys and the map at (or beyond) capacity, at most
one key carries the current tag name, so the candidate list of eviction is
non-empty. -/
theorem candidates_nonempty (s2 : Session σ)
    (hnd : (s2.session_states.map Prod.fst).Nodup)
    (hlen : MAX_SESSION_STATES ≤ s2.session_states.length) :
    (s2.session_states.map Prod.fst).filter (fun k => k != s2.session_tag_name) ≠ [] := by
  intro he
  have h1 := filter_ne_length_ge (s2.session_states.map Prod.fst) s2.session_tag_name hnd
  rw [he] at h1
  rw [List.length_map] at h1
  unfold MAX_SESSION_STATES at hlen
  simp at h1
  omega

/-- Eviction on a Nodup-keyed session with candidates removes exactly one
entry. -/
theorem evict_oldest_length (s : Session σ)
    (hnd : (s.session_states.map Prod.fst).Nodup) (c : Nat) (cs : List Nat)
    (hc : (s.session_states.map Prod.fst).filter (fun k => k != s.session_tag_name) = c :: cs) :
    (evict_oldest s).sess.session_states.length + 1 = s.session_states.length := by
  obtain ⟨_, hsess, _⟩ := evict_oldest_of_nonempty s c cs hc
  rw [hsess]
  dsimp only
  apply filter_key_length _ _ hnd
  have hmem := foldl_min_mem (entryIdx s.session_states) cs c
  rw [← hc] at hmem
  exact List.mem_of_mem_filter hmem

/-- Under the distinct-keys invariant, `_insert_session_state` never throws:
the eviction it may invoke always has a candidate. -/
theorem insert_res_ok (s : Session σ) (t : SessionTag) (st : σ) (h : WfKeys s) :
    (insert_session_state s t st).res = .ok () := by
  unfold insert_session_state
  dsimp only
  split
  · rfl
  · next hlen =>
    have hnd2 := insertPromote_keys_nodup s t st h
    rcases hcand : ((insertPromote s t st).session_states.map Prod.fst).filter
        (fun k => k != (insertPromote s t st).session_tag_name) with _ | ⟨c, cs⟩
    · exact absurd hcand (candidates_nonempty _ hnd2 (Nat.le_of_not_lt hlen))
    · exact (evict_oldest_of_nonempty _ c cs hcand).1

theorem insert_sess_pending (s : Session σ) (t : SessionTag) (st : σ) :
    (insert_session_state s t st).sess.pending_prekey = s.pending_prekey := by
  unfold insert_session_state
  dsimp only
  split
  · exact insertPromote_pending s t st
  · rw [evict_oldest_pending]
    exact insertPromote_pending s t st

theorem insert_keys_nodup (s : Session σ) (t : SessionTag) (st : σ) (h : WfKeys s) :
    WfKeys (insert_session_state s t st).sess := by
  unfold insert_session_state
  dsimp only
  have hnd2 := insertPromote_keys_nodup s t st h
  split
  · exact hnd2
  · exact List.Nodup.sublist (evict_oldest_keys_sublist _) hnd2

theorem insert_size_inv (s : Session σ) (t : SessionTag) (st : σ) (h : WfKeys s)
    (hs : SizeInv s) : SizeInv (insert_session_state s t st).sess := by
  unfold insert_session_state
  dsimp only
  split
  · next hlt => exact Nat.le_of_lt hlt
  · next hlen =>
    have hnd2 := insertPromote_keys_nodup s t st h
    rcases hcand : ((insertPromote s t st).session_states.map Prod.fst).filter
        (fun k => k != (insertPromote s t st).session_tag_name) with _ | ⟨c, cs⟩
    · exact absurd hcand (candidates_nonempty _ hnd2 (Nat.le_of_not_lt hlen))
    · have hone := evict_oldest_length _ hnd2 c cs hcand
      have hle := insertPromote_length_le s t st
      unfold SizeInv MAX_SESSION_STATES at *
      omega

/-- The events `_insert_session_state` emits are at most one entry
zeroization. -/
theorem insert_events_cases (s : Session σ) (t : SessionTag) (st : σ) :
    (insert_session_state s t st).events = [] ∨
      ∃ k, (insert_session_state s t st).events = [Event.zeroizeEntry k] := by
  unfold insert_session_state
  dsimp only
  split
  · exact Or.inl rfl
  · unfold evict_oldest
    split
    · exact Or.inl rfl
    · exact Or.inr ⟨_, rfl⟩

/-- A failing `_decrypt_cipher_message` leaves the session untouched and
emits no events: the lookup and clone-decrypt failures precede every
mutation, and under distinct keys the commit itself cannot fail. -/
theorem dcm_err (sm : SSModel σ) (s : Session σ) (env : Envelope) (m : CipherMessage)
    (e : PErr) (h : WfKeys s)
    (he : (decrypt_cipher_message sm s env m).res = .error e) :
    (decrypt_cipher_message sm s env m).sess = s ∧
      (decrypt_cipher_message sm s env m).events = [] := by
  unfold decrypt_cipher_message at he ⊢
  rcases hl : lookupEntry s.session_states (SessionTag.name m.session_tag) with _ | entry
  · exact ⟨rfl, rfl⟩
  · rw [hl] at he
    dsimp only at he ⊢
    rcases hd : sm.decrypt (sm.deserialise (sm.serialise entry.state)) env m with e2 | pr
    · exact ⟨rfl, rfl⟩
    · rw [hd] at he
      dsimp only at he ⊢
      have hok : (insert_session_state { s with pending_prekey := none }
          m.session_tag pr.2).res = .ok () := insert_res_ok _ _ _ h
      rw [hok] at he
      exact absurd he (by simp)

/-- A successful `_decrypt_cipher_message` has cleared `pending_prekey`. -/
theorem dcm_ok_pending (sm : SSModel σ) (s : Session σ) (env : Envelope) (m : CipherMessage)
    (pt : Bytes) (he : (decrypt_cipher_message sm s env m).res = .ok pt) :
    (decrypt_cipher_message sm s env m).sess.pending_prekey = none := by
  unfold decrypt_cipher_message at he ⊢
  rcases hl : lookupEntry s.session_states (SessionTag.name m.session_tag) with _ | entry
  · rw [hl] at he
    exact absurd he (by simp)
  · rw [hl] at he
    dsimp only at he ⊢
    rcases hd : sm.decrypt (sm.deserialise (sm.serialise entry.state)) env m with e2 | pr
    · rw [hd] at he
      exact absurd he (by simp)
    · rw [hd] at he
      dsimp only at he ⊢
      rcases hr : (insert_session_state { s with pending_prekey := none }
          m.session_tag pr.2).res with e3 | u
      · rw [hr] at he
        exact absurd he (by simp)
      · dsimp only
        rw [insert_sess_pending]

/-- Lemma: `_decrypt_cipher_message` preserves the key and size invariants. -/
theorem dcm_inv (sm : SSModel σ) (s : Session σ) (env : Envelope) (m : CipherMessage)
    (h : WfKeys s) (hs : SizeInv s) :
    WfKeys (decrypt_cipher_message sm s env m).sess ∧
      SizeInv (decrypt_cipher_message sm s env m).sess := by
  unfold decrypt_cipher_message
  rcases hl : lookupEntry s.session_states (SessionTag.name m.session_tag) with _ | entry
  · exact ⟨h, hs⟩
  · dsimp only
    rcases hd : sm.decrypt (sm.deserialise (sm.serialise entry.state)) env m with e2 | pr
    · exact ⟨h, hs⟩
    · dsimp only
      rcases hr : (insert_session_state { s with pending_prekey := none }
          m.session_tag pr.2).res with e3 | u
      · dsimp only
        exact ⟨insert_keys_nodup _ _ _ h, insert_size_inv _ _ _ h hs⟩
      · dsimp only
        exact ⟨insert_keys_nodup _ _ _ h, insert_size_inv _ _ _ h hs⟩

/-- A failing recovery branch leaves the session untouched: every failure
point (state derivation, decryption, prekey load, prekey delete, commit)
precedes the insertion and the pending-prekey clear. -/
theorem recover_err (sm : SSModel σ) (stm : StoreModel τ) (s : Session σ) (w : Wld τ)
    (env : Envelope) (m : PreKeyMessage) (e : PErr) (h : WfKeys s)
    (he : (recover_prekey_message sm stm s w env m).res = .error e) :
    (recover_prekey_message sm stm s w env m).sess = s := by
  unfold recover_prekey_message at he ⊢
  rcases hn : new_state sm stm s w m with ⟨e1 | st1, w1⟩
  · rfl
  · rw [hn] at he
    dsimp only at he ⊢
    rcases hd : sm.decrypt st1 env m.message with e2 | pr
    · rfl
    · rw [hd] at he
      dsimp only at he ⊢
      have hok : (insert_session_state s m.message.session_tag pr.2).res = .ok () :=
        insert_res_ok _ _ _ h
      by_cases hid : m.prekey_id = MAX_PREKEY_ID
      · rw [if_neg (fun hc => hc hid)] at he ⊢
        rw [hok] at he
        exact absurd he (by simp)
      · rw [if_pos hid] at he ⊢
        rcases hl2 : stm.load_prekey w1.store m.prekey_id with ⟨lr | opk, lst⟩
        · rfl
        · rw [hl2] at he
          dsimp only at he ⊢
          rcases hdel : stm.delete_prekey lst m.prekey_id with ⟨dr | du, dst⟩
          · rfl
          · rw [hdel] at he
            dsimp only at he ⊢
            rw [hok] at he
            exact absurd he (by simp)

/-- A successful recovery branch has cleared `pending_prekey`. -/
theorem recover_ok_pending (sm : SSModel σ) (stm : StoreModel τ) (s : Session σ)
    (w : Wld τ) (env : Envelope) (m : PreKeyMessage) (pt : Bytes)
    (he : (recover_prekey_message sm stm s w env m).res = .ok pt) :
    (recover_prekey_message sm stm s w env m).sess.pending_prekey = none := by
  unfold recover_prekey_message at he ⊢
  rcases hn : new_state sm stm s w m with ⟨e1 | st1, w1⟩
  · rw [hn] at he
    exact absurd he (by simp)
  · rw [hn] at he
    dsimp only at he ⊢
    rcases hd : sm.decrypt st1 env m.message with e2 | pr
    · rw [hd] at he
      exact absurd he (by simp)
    · rw [hd] at he
      dsimp only at he ⊢
      by_cases hid : m.prekey_id = MAX_PREKEY_ID
      · rw [if_neg (fun hc => hc hid)] at he ⊢
        rcases hr : (insert_session_state s m.message.session_tag pr.2).res with e3 | u
        · rw [hr] at he
          exact absurd he (by simp)
        · rfl
      · rw [if_pos hid] at he ⊢
        rcases hl2 : stm.load_prekey w1.store m.prekey_id with ⟨lr | opk, lst⟩
        · rw [hl2] at he
          exact absurd he (by simp)
        · rw [hl2] at he
          dsimp only at he ⊢
          rcases hdel : stm.delete_prekey lst m.prekey_id with ⟨dr | du, dst⟩
          · rw [hdel] at he
            exact absurd he (by simp)
          · rw [hdel] at he
            dsimp only at he ⊢
            rcases hr : (insert_session_state s m.message.session_tag pr.2).res with e3 | u
            · rw [hr] at he
              exact absurd he (by simp)
            · rfl

/-- The recovery branch preserves the key and size invariants. -/
theorem recover_inv (sm : SSModel σ) (stm : StoreModel τ) (s : Session σ) (w : Wld τ)
    (env : Envelope) (m : PreKeyMessage) (h : WfKeys s) (hs : SizeInv s) :
    WfKeys (recover_prekey_message sm stm s w env m).sess ∧
      SizeInv (recover_prekey_message sm stm s w env m).sess := by
  unfold recover_prekey_message
  rcases hn : new_state sm stm s w m with ⟨e1 | st1, w1⟩
  · exact ⟨h, hs⟩
  · dsimp only
    rcases hd : sm.decrypt st1 env m.message with e2 | pr
    · exact ⟨h, hs⟩
    · dsimp only
      have hcommit : WfKeys (insert_session_state s m.message.session_tag pr.2).sess ∧
          SizeInv (insert_session_state s m.message.session_tag pr.2).sess :=
        ⟨insert_keys_nodup _ _ _ h, insert_size_inv _ _ _ h hs⟩
      by_cases hid : m.prekey_id = MAX_PREKEY_ID
      · rw [if_neg (fun hc => hc hid)]
        rcases hr : (insert_session_state s m.message.session_tag pr.2).res with e3 | u
        · exact hcommit
        · exact hcommit
      · rw [if_pos hid]
        rcases hl2 : stm.load_prekey w1.store m.prekey_id with ⟨lr | opk, lst⟩
        · exact ⟨h, hs⟩
        · dsimp only
          rcases hdel : stm.delete_prekey lst m.prekey_id with ⟨dr | du, dst⟩
          · exact ⟨h, hs⟩
          · dsimp only
            rcases hr : (insert_session_state s m.message.session_tag pr.2).res with e3 | u
            · exact hcommit
            · exact hcommit

/-- A failing `Session.decrypt` leaves the session object exactly as it
was. -/
theorem decrypt_err_sess (sm : SSModel σ) (stm : StoreModel τ) (s : Session σ)
    (w : Wld τ) (env : Envelope) (e : PErr) (h : WfKeys s)
    (he : (Session.decrypt sm stm s w env).res = .error e) :
    (Session.decrypt sm stm s w env).sess = s := by
  unfold Session.decrypt at he ⊢
  rcases hm : env.message with m | m | _
  · rw [hm] at he
    dsimp only at he ⊢
    exact (dcm_err sm s env m e h he).1
  · rw [hm] at he
    dsimp only at he ⊢
    by_cases hfp : IdentityKey.fingerprint m.identity_key =
        IdentityKey.fingerprint s.remote_identity
    · rw [if_neg (fun hc => hc hfp)] at he ⊢
      unfold decrypt_prekey_message at he ⊢
      dsimp only at he ⊢
      rcases hf : (decrypt_cipher_message sm s env m.message).res with e0 | pt
      · rw [hf] at he
        dsimp only at he ⊢
        obtain ⟨hfs, _⟩ := dcm_err sm s env m.message e0 h hf
        by_cases hrec : e0.isRecoverable = true
        · rw [if_pos hrec] at he ⊢
          rw [hfs] at he ⊢
          exact recover_err sm stm s _ env m e h he
        · rw [if_neg hrec] at he ⊢
          exact hfs
      · rw [hf] at he
        exact absurd he (by simp)
    · rw [if_pos hfp] at he ⊢
  · rfl

/-- A successful `Session.decrypt` has cleared `pending_prekey`. -/
theorem decrypt_ok_pending_aux (sm : SSModel σ) (stm : StoreModel τ) (s : Session σ)
    (w : Wld τ) (env : Envelope) (pt : Bytes)
    (he : (Session.decrypt sm stm s w env).res = .ok pt) :
    (Session.decrypt sm stm s w env).sess.pending_prekey = none := by
  unfold Session.decrypt at he ⊢
  rcases hm : env.message with m | m | _
  · rw [hm] at he
    dsimp only at he ⊢
    exact dcm_ok_pending sm s env m pt he
  · rw [hm] at he
    dsimp only at he ⊢
    by_cases hfp : IdentityKey.fingerprint m.identity_key =
        IdentityKey.fingerprint s.remote_identity
    · rw [if_neg (fun hc => hc hfp)] at he ⊢
      unfold decrypt_prekey_message at he ⊢
      dsimp only at he ⊢
      rcases hf : (decrypt_cipher_message sm s env m.message).res with e0 | pt2
      · rw [hf] at he
        dsimp only at he ⊢
        by_cases hrec : e0.isRecoverable = true
        · rw [if_pos hrec] at he ⊢
          exact recover_ok_pending sm stm _ _ env m pt he
        · rw [if_neg hrec] at he
          exact absurd he (by simp)
      · rw [hf] at he
        dsimp only at he ⊢
        exact dcm_ok_pending sm s env m.message pt2 hf
    · rw [if_pos hfp] at he
      exact absurd he (by simp)
  · rw [hm] at he
    exact absurd he (by simp)

/-- Lemma: `Session.decrypt` preserves the key and size invariants. -/
theorem decrypt_inv (sm : SSModel σ) (stm : StoreModel τ) (s : Session σ) (w : Wld τ)
    (env : Envelope) (h : WfKeys s) (hs : SizeInv s) :
    WfKeys (Session.decrypt sm stm s w env).sess ∧
      SizeInv (Session.decrypt sm stm s w env).sess := by
  unfold Session.decrypt
  rcases hm : env.message with m | m | _
  · dsimp only
    exact dcm_inv sm s env m h hs
  · dsimp only
    by_cases hfp : IdentityKey.fingerprint m.identity_key =
        IdentityKey.fingerprint s.remote_identity
    · rw [if_neg (fun hc => hc hfp)]
      unfold decrypt_prekey_message
      dsimp only
      rcases hf : (decrypt_cipher_message sm s env m.message).res with e0 | pt
      · dsimp only
        obtain ⟨h2, hs2⟩ := dcm_inv sm s env m.message h hs
        by_cases hrec : e0.isRecoverable = true
        · rw [if_pos hrec]
          exact recover_inv sm stm _ _ env m h2 hs2
        · rw [if_neg hrec]
          exact ⟨h2, hs2⟩
      · dsimp only
        exact dcm_inv sm s env m.message h hs
    · rw [if_pos hfp]
      exact ⟨h, hs⟩
  · exact ⟨h, hs⟩

/-- Lemma: `Session.encrypt` preserves the key and size invariants (it only ever
replaces a state value in place). -/
theorem encrypt_inv (sm : SSModel σ) (s : Session σ) (pt : Bytes)
    (h : WfKeys s) (hs : SizeInv s) :
    WfKeys (Session.encrypt sm s pt).2 ∧ SizeInv (Session.encrypt sm s pt).2 := by
  unfold Session.encrypt
  rcases hl : lookupEntry s.session_states s.session_tag_name with _ | entry
  · exact ⟨h, hs⟩
  · dsimp only
    rcases hc : sm.encrypt entry.state s.local_identity.public_key s.pending_prekey
        s.session_tag pt with e | pr
    · exact ⟨h, hs⟩
    · dsimp only
      constructor
      · unfold WfKeys
        dsimp only
        rw [keys_setEntryState]
        exact h
      · unfold SizeInv
        dsimp only
        rw [length_setEntryState]
        exact hs

/-- Under distinct keys, lookup finds exactly the pair present in the
list. -/
theorem lookup_mem_nodup (l : List (Nat × StateEntry σ)) (k : Nat) (e : StateEntry σ)
    (hnd : (l.map Prod.fst).Nodup) (hm : (k, e) ∈ l) :
    lookupEntry l k = some e := by
  induction l with
  | nil => simp at hm
  | cons a t ih =>
    simp only [List.map_cons, List.nodup_cons] at hnd
    rcases List.mem_cons.mp hm with h | h
    · subst h
      unfold lookupEntry
      rw [List.find?_cons_of_pos _ (by simp)]
      rfl
    · have hka : a.1 ≠ k := by
        intro hek
        exact hnd.1 (hek ▸ List.mem_map.mpr ⟨(k, e), h, rfl⟩)
      unfold lookupEntry
      rw [List.find?_cons_of_neg _ (by simpa using hka)]
      exact ih hnd.2 h

/-- Every existing key resolves to some entry. -/
theorem lookup_of_mem_keys (l : List (Nat × StateEntry σ)) (k : Nat)
    (hk : k ∈ l.map Prod.fst) : ∃ e, lookupEntry l k = some e := by
  rcases List.mem_map.mp hk with ⟨p, hp, hpe⟩
  have hfind : (l.find? (fun q => q.1 == k)).isSome :=
    List.find?_isSome.mpr ⟨p, hp, by simp [hpe]⟩
  rcases Option.isSome_iff_exists.mp hfind with ⟨q, hq⟩
  exact ⟨q.2, by unfold lookupEntry; rw [hq]; rfl⟩

/-- Removing key `k` does not change the lookup of any other key. -/
theorem lookup_filter_ne (l : List (Nat × StateEntry σ)) (k j : Nat) (hjk : j ≠ k) :
    lookupEntry (l.filter (fun p => p.1 != k)) j = lookupEntry l j := by
  induction l with
  | nil => rfl
  | cons a t ih =>
    by_cases haj : a.1 = j
    · have hak : (fun p : Nat × StateEntry σ => p.1 != k) a = true := by
        simpa using (haj ▸ hjk : a.1 ≠ k)
      rw [@List.filter_cons_of_pos (Nat × StateEntry σ) (fun p => p.1 != k) a t hak]
      unfold lookupEntry
      rw [List.find?_cons_of_pos _ (by simp [haj]), List.find?_cons_of_pos _ (by simp [haj])]
    · by_cases hak : a.1 = k
      · rw [List.filter_cons_of_neg (by simp [hak])]
        rw [ih]
        unfold lookupEntry
        rw [List.find?_cons_of_neg _ (by simpa using haj)]
      · rw [List.filter_cons_of_pos (by simpa using hak)]
        unfold lookupEntry
        rw [List.find?_cons_of_neg _ (by simpa using haj),
          List.find?_cons_of_neg _ (by simpa using haj)]
        exact ih

/-- Every reachable session has distinct keys and at most
`MAX_SESSION_STATES` entries. -/
theorem reachable_inv (sm : SSModel σ) (s : Session σ) (hr : Reachable sm s) :
    WfKeys s ∧ SizeInv s := by
  induction hr with
  | init s h =>
    constructor
    · unfold WfKeys
      rw [h]
      exact List.nodup_nil
    · unfold SizeInv
      rw [h]
      exact Nat.zero_le _
  | insertStep s t st _ ih => exact ⟨insert_keys_nodup _ _ _ ih.1, insert_size_inv _ _ _ ih.1 ih.2⟩
  | encryptStep s pt _ ih => exact encrypt_inv sm s pt ih.1 ih.2
  | decryptStep stm s w env _ ih => exact decrypt_inv sm stm s w env ih.1 ih.2

/-- C1: if `Session.decrypt` raises any error, the session state is
exactly as it was before the call, so serialising it afterwards yields the
same bytes as before: `_decrypt_cipher_message` decrypts only a deep clone
of the stored ratchet state and commits it, clears `pending_prekey` and
re-inserts only on success, and the prekey recovery branch mutates the
session only after every fallible step has succeeded. -/
theorem decrypt_atomicity (sm : SSModel σ) (stm : StoreModel τ) (s : Session σ)
    (w : Wld τ) (env : Envelope) (e : PErr) (h : WfKeys s)
    (he : (Session.decrypt sm stm s w env).res = .error e) :
    (Session.decrypt sm stm s w env).sess = s ∧
      Session.encode sm (Session.decrypt sm stm s w env).sess = Session.encode sm s := by
  have h1 := decrypt_err_sess sm stm s w env e h he
  exact ⟨h1, by rw [h1]⟩

theorem decrypt_atomicity_witness :
    WfKeys sessOne ∧
      (Session.decrypt toySMdup toyStore sessOne w0 envCipherA).res =
        .error (PErr.duplicateMessage 209) ∧
      (Session.decrypt toySMdup toyStore sessOne w0 envCipherA).sess = sessOne ∧
      Session.encode toySMdup (Session.decrypt toySMdup toyStore sessOne w0 envCipherA).sess =
        Session.encode toySMdup sessOne := by
  have h : WfKeys sessOne := by unfold WfKeys; decide
  have he : (Session.decrypt toySMdup toyStore sessOne w0 envCipherA).res =
      .error (PErr.duplicateMessage 209) := rfl
  have hmain := decrypt_atomicity toySMdup toyStore sessOne w0 envCipherA
    (PErr.duplicateMessage 209) h he
  exact ⟨h, he, hmain.1, hmain.2⟩

/-- C2: after any sequence of successful encrypt/decrypt calls (and hence
after every `_insert_session_state`), the map holds at most
`MAX_SESSION_STATES = 100` entries; moreover the insert invokes eviction
exactly when the map holds at least 100 entries after the insertion. -/
theorem session_states_bounded (sm : SSModel σ) (s : Session σ) (hr : Reachable sm s) :
    s.session_states.length ≤ MAX_SESSION_STATES ∧
      ∀ (t : SessionTag) (st : σ),
        MAX_SESSION_STATES ≤ (insertPromote s t st).session_states.length →
        insert_session_state s t st = evict_oldest (insertPromote s t st) := by
  refine ⟨(reachable_inv sm s hr).2, fun t st hlen => ?_⟩
  unfold insert_session_state
  dsimp only
  rw [if_neg (Nat.not_lt.mpr hlen)]

theorem session_states_bounded_witness :
    Reachable toySM sessEmpty ∧
      sessEmpty.session_states.length ≤ MAX_SESSION_STATES :=
  ⟨Reachable.init sessEmpty rfl,
    (session_states_bounded toySM sessEmpty (Reachable.init sessEmpty rfl)).1⟩

/-- C7: eviction removes exactly one entry: among the entries whose name
differs from the current session tag name, one with the smallest `idx`;
that entry is zeroized, and the entry of the current tag survives untouched. -/
theorem evict_oldest_correct (s : Session σ) (h : WfKeys s)
    (hne : (s.session_states.map Prod.fst).filter (fun k => k != s.session_tag_name) ≠ []) :
    ∃ (k : Nat) (e : StateEntry σ),
      lookupEntry s.session_states k = some e ∧
      k ≠ s.session_tag_name ∧
      (evict_oldest s).res = .ok () ∧
      (evict_oldest s).sess =
        { s with session_states := s.session_states.filter (fun p => p.1 != k) } ∧
      (evict_oldest s).sess.session_states.length + 1 = s.session_states.length ∧
      (evict_oldest s).events = [Event.zeroizeEntry k] ∧
      (∀ p ∈ s.session_states, p.1 ≠ s.session_tag_name → e.idx ≤ p.2.idx) ∧
      lookupEntry (evict_oldest s).sess.session_states s.session_tag_name =
        lookupEntry s.session_states s.session_tag_name := by
  rcases hc : (s.session_states.map Prod.fst).filter (fun k => k != s.session_tag_name)
    with _ | ⟨c, cs⟩
  · exact absurd hc hne
  · obtain ⟨hok, hsess, hev⟩ := evict_oldest_of_nonempty s c cs hc
    set low := cs.foldl
      (fun lowest obj =>
        if entryIdx s.session_states obj < entryIdx s.session_states lowest then obj
        else lowest) c with hlow
    have hmem : low ∈ c :: cs := foldl_min_mem _ cs c
    have hmemf : low ∈ (s.session_states.map Prod.fst).filter
        (fun k => k != s.session_tag_name) := by rw [hc]; exact hmem
    have hkeys : low ∈ s.session_states.map Prod.fst := List.mem_of_mem_filter hmemf
    have hnecur : low ≠ s.session_tag_name := by
      have := List.of_mem_filter hmemf
      simpa using this
    obtain ⟨e, hlk⟩ := lookup_of_mem_keys s.session_states low hkeys
    refine ⟨low, e, hlk, hnecur, hok, hsess, ?_, hev, ?_, ?_⟩
    · exact evict_oldest_length s h c cs hc
    · intro p hp hpne
      have hpk : p.1 ∈ (s.session_states.map Prod.fst).filter
          (fun k => k != s.session_tag_name) :=
        List.mem_filter.mpr ⟨List.mem_map.mpr ⟨p, hp, rfl⟩, by simpa using hpne⟩
      have hple := foldl_min_le (entryIdx s.session_states) cs c p.1 (by rw [← hc]; exact hpk)
      have hlp : lookupEntry s.session_states p.1 = some p.2 :=
        lookup_mem_nodup s.session_states p.1 p.2 h (by simpa using hp)
      have he1 : entryIdx s.session_states low = e.idx := by
        unfold entryIdx
        rw [hlk]
        rfl
      have he2 : entryIdx s.session_states p.1 = p.2.idx := by
        unfold entryIdx
        rw [hlp]
        rfl
      rw [he1, he2] at hple
      exact hple
    · rw [hsess]
      exact lookup_filter_ne s.session_states low s.session_tag_name hnecur.symm

theorem evict_oldest_correct_witness :
    WfKeys sessTwo ∧
      (sessTwo.session_states.map Prod.fst).filter
        (fun k => k != sessTwo.session_tag_name) ≠ [] ∧
      ∃ (k : Nat) (e : StateEntry Nat),
        lookupEntry sessTwo.session_states k = some e ∧
        k ≠ sessTwo.session_tag_name ∧
        (evict_oldest sessTwo).res = .ok () ∧
        (evict_oldest sessTwo).sess =
          { sessTwo with
              session_states := sessTwo.session_states.filter (fun p => p.1 != k) } ∧
        (evict_oldest sessTwo).sess.session_states.length + 1 =
          sessTwo.session_states.length ∧
        (evict_oldest sessTwo).events = [Event.zeroizeEntry k] ∧
        (∀ p ∈ sessTwo.session_states, p.1 ≠ sessTwo.session_tag_name → e.idx ≤ p.2.idx) ∧
        lookupEntry (evict_oldest sessTwo).sess.session_states sessTwo.session_tag_name =
          lookupEntry sessTwo.session_states sessTwo.session_tag_name := by
  have h1 : WfKeys sessTwo := by unfold WfKeys; decide
  have h2 : (sessTwo.session_states.map Prod.fst).filter
      (fun k => k != sessTwo.session_tag_name) ≠ [] := by decide
  exact ⟨h1, h2, evict_oldest_correct sessTwo h1 h2⟩

/-- C8: after any successful `Session.decrypt`, `pending_prekey` is null:
the cipher-message path clears it before committing the advanced state, and
the prekey recovery path clears it before returning. -/
theorem decrypt_clears_pending (sm : SSModel σ) (stm : StoreModel τ) (s : Session σ)
    (w : Wld τ) (env : Envelope) (pt : Bytes)
    (he : (Session.decrypt sm stm s w env).res = .ok pt) :
    (Session.decrypt sm stm s w env).sess.pending_prekey = none :=
  decrypt_ok_pending_aux sm stm s w env pt he

theorem decrypt_clears_pending_witness :
    (Session.decrypt toySM toyStore sessOne w0 envCipherA).res = .ok [10] ∧
      (Session.decrypt toySM toyStore sessOne w0 envCipherA).sess.pending_prekey = none := by
  have he : (Session.decrypt toySM toyStore sessOne w0 envCipherA).res = .ok [10] := rfl
  exact ⟨he, decrypt_clears_pending toySM toyStore sessOne w0 envCipherA [10] he⟩

/-- C9: whenever `_insert_session_state` invokes eviction, the candidate
list of entries named differently from the current tag is non-empty (the
map then holds at least 100 entries, of which at most one carries the
current name), so the initial-value-less `reduce` never sees an empty list
and insertion always returns successfully. -/
theorem eviction_never_empty (s : Session σ) (t : SessionTag) (st : σ) (h : WfKeys s) :
    (insert_session_state s t st).res = .ok () ∧
      (MAX_SESSION_STATES ≤ (insertPromote s t st).session_states.length →
        ((insertPromote s t st).session_states.map Prod.fst).filter
          (fun k => k != (insertPromote s t st).session_tag_name) ≠ []) := by
  refine ⟨insert_res_ok s t st h, fun hlen => ?_⟩
  exact candidates_nonempty _ (insertPromote_keys_nodup s t st h) hlen

theorem eviction_never_empty_witness :
    WfKeys sessOne ∧
      (insert_session_state sessOne tagB 5).res = .ok () ∧
      (MAX_SESSION_STATES ≤ (insertPromote sessOne tagB 5).session_states.length →
        ((insertPromote sessOne tagB 5).session_states.map Prod.fst).filter
          (fun k => k != (insertPromote sessOne tagB 5).session_tag_name) ≠ []) := by
  have h : WfKeys sessOne := by unfold WfKeys; decide
  exact ⟨h, eviction_never_empty sessOne tagB 5 h⟩

/-- C5: on a `PreKeyMessage`, `decrypt` first pins the remote identity
(mismatch fails with `RemoteIdentityChanged(CASE_204)` and nothing else
happens); otherwise the existing-state branch is attempted first, its
success is returned as-is, a recoverable failure (exactly the
`InvalidSignature` / `InvalidMessage` kinds) enters the fresh-ratchet
recovery branch, and every other failure is re-raised unchanged. -/
theorem decrypt_prekey_policy (sm : SSModel σ) (stm : StoreModel τ) (s : Session σ)
    (w : Wld τ) (env : Envelope) (m : PreKeyMessage)
    (hm : env.message = Message.prekey m) :
    (IdentityKey.fingerprint m.identity_key ≠ IdentityKey.fingerprint s.remote_identity →
      Session.decrypt sm stm s w env =
        IOResult.mk (.error (PErr.remoteIdentityChanged 204)) s w) ∧
    (IdentityKey.fingerprint m.identity_key = IdentityKey.fingerprint s.remote_identity →
      (∀ pt, (decrypt_cipher_message sm s env m.message).res = .ok pt →
        Session.decrypt sm stm s w env =
          IOResult.mk (.ok pt) (decrypt_cipher_message sm s env m.message).sess
            (Wld.mk w.store (w.trace ++ (decrypt_cipher_message sm s env m.message).events))) ∧
      (∀ e, (decrypt_cipher_message sm s env m.message).res = .error e →
        (e.isRecoverable = true →
          Session.decrypt sm stm s w env =
            recover_prekey_message sm stm (decrypt_cipher_message sm s env m.message).sess
              (Wld.mk w.store (w.trace ++ (decrypt_cipher_message sm s env m.message).events))
              env m) ∧
        (e.isRecoverable = false →
          Session.decrypt sm stm s w env =
            IOResult.mk (.error e) (decrypt_cipher_message sm s env m.message).sess
              (Wld.mk w.store
                (w.trace ++ (decrypt_cipher_message sm s env m.message).events))))) ∧
    (∀ e2 : PErr, e2.isRecoverable = true ↔
      (∃ c, e2 = PErr.invalidSignature c) ∨ (∃ c, e2 = PErr.invalidMessage c)) := by
  refine ⟨?_, ?_, ?_⟩
  · intro hfp
    unfold Session.decrypt
    rw [hm]
    dsimp only
    rw [if_pos hfp]
  · intro hfp
    constructor
    · intro pt hpt
      unfold Session.decrypt
      rw [hm]
      dsimp only
      rw [if_neg (fun hc => hc hfp)]
      unfold decrypt_prekey_message
      dsimp only
      rw [hpt]
    · intro e hpe
      constructor
      · intro hrec
        unfold Session.decrypt
        rw [hm]
        dsimp only
        rw [if_neg (fun hc => hc hfp)]
        unfold decrypt_prekey_message
        dsimp only
        rw [hpe]
        dsimp only
        rw [if_pos hrec]
      · intro hnrec
        have hnr : ¬(e.isRecoverable = true) := by simp [hnrec]
        unfold Session.decrypt
        rw [hm]
        dsimp only
        rw [if_neg (fun hc => hc hfp)]
        unfold decrypt_prekey_message
        dsimp only
        rw [hpe]
        dsimp only
        rw [if_neg hnr]
  · intro e2
    cases e2 <;> simp [PErr.isRecoverable]

theorem decrypt_prekey_policy_witness :
    env5.message = Message.prekey m5 ∧
      (decrypt_cipher_message toySMrec sessOne env5 m5.message).res =
        .error (PErr.invalidMessage 205) ∧
      (PErr.invalidMessage 205).isRecoverable = true ∧
      Session.decrypt toySMrec toyStore sessOne w0 env5 =
        recover_prekey_message toySMrec toyStore
          (decrypt_cipher_message toySMrec sessOne env5 m5.message).sess
          (Wld.mk w0.store
            (w0.trace ++ (decrypt_cipher_message toySMrec sessOne env5 m5.message).events))
          env5 m5 := by
  have hm : env5.message = Message.prekey m5 := rfl
  have hfp : IdentityKey.fingerprint m5.identity_key =
      IdentityKey.fingerprint sessOne.remote_identity := rfl
  have hpe : (decrypt_cipher_message toySMrec sessOne env5 m5.message).res =
      .error (PErr.invalidMessage 205) := rfl
  have happ := (((decrypt_prekey_policy toySMrec toyStore sessOne w0 env5 m5 hm).2.1
    hfp).2 (PErr.invalidMessage 205) hpe).1 rfl
  exact ⟨hm, hpe, rfl, happ⟩

/-- C10: in the recovery branch, a `delete_prekey` failure after the fresh
state already decrypted the message propagates the raw store error with the
session entirely unmodified (the state is not inserted, `pending_prekey` is
not cleared), even though the prekey has already been loaded and zeroized. -/
theorem recovery_delete_failure (sm : SSModel σ) (stm : StoreModel τ) (s : Session σ)
    (w : Wld τ) (env : Envelope) (m : PreKeyMessage) (e0 e2 : PErr) (pk : PreKey)
    (st1 : τ) (pt : Bytes) (stx : σ) (opk : Option PreKey) (st3 dst : τ)
    (h : WfKeys s)
    (hm : env.message = Message.prekey m)
    (hfp : IdentityKey.fingerprint m.identity_key = IdentityKey.fingerprint s.remote_identity)
    (hf : (decrypt_cipher_message sm s env m.message).res = .error e0)
    (hrec : e0.isRecoverable = true)
    (hload : stm.load_prekey w.store m.prekey_id = (.ok (some pk), st1))
    (hdec : sm.decrypt (sm.init_as_bob s.local_identity pk.key_pair m.identity_key m.base_key)
      env m.message = .ok (pt, stx))
    (hid : m.prekey_id ≠ MAX_PREKEY_ID)
    (hload2 : stm.load_prekey st1 m.prekey_id = (.ok opk, st3))
    (hdel : stm.delete_prekey st3 m.prekey_id = (.error e2, dst)) :
    (Session.decrypt sm stm s w env).res = .error e2 ∧
      (Session.decrypt sm stm s w env).sess = s ∧
      (Session.decrypt sm stm s w env).sess.session_states = s.session_states ∧
      (Session.decrypt sm stm s w env).sess.pending_prekey = s.pending_prekey ∧
      (Session.decrypt sm stm s w env).wld.trace =
        w.trace ++ [Event.loadPrekey m.prekey_id, Event.loadPrekey m.prekey_id,
          Event.zeroizePrekey m.prekey_id, Event.deletePrekey m.prekey_id] ∧
      (Session.decrypt sm stm s w env).wld.store = dst := by
  obtain ⟨hfs, hevs⟩ := dcm_err sm s env m.message e0 h hf
  unfold Session.decrypt
  rw [hm]
  dsimp only
  rw [if_neg (fun hc => hc hfp)]
  unfold decrypt_prekey_message
  dsimp only
  rw [hf]
  dsimp only
  rw [if_pos hrec, hfs, hevs]
  unfold recover_prekey_message new_state
  dsimp only
  rw [hload]
  dsimp only
  rw [hdec]
  dsimp only
  rw [if_pos hid, hload2]
  dsimp only
  rw [hdel]
  dsimp only
  refine ⟨rfl, rfl, rfl, rfl, ?_, rfl⟩
  simp

theorem recovery_delete_failure_witness :
    (Session.decrypt toySMrec toyStoreDelFail sessOne w0 env5).res =
      .error (PErr.storeError 9) ∧
      (Session.decrypt toySMrec toyStoreDelFail sessOne w0 env5).sess = sessOne := by
  have h := recovery_delete_failure toySMrec toyStoreDelFail sessOne w0 env5 m5
    (PErr.invalidMessage 205) (PErr.storeError 9)
    (PreKey.mk 3 (KeyPair.mk (PublicKey.mk 0))) () [7] 7
    (some (PreKey.mk 3 (KeyPair.mk (PublicKey.mk 0)))) () ()
    (by unfold WfKeys; decide) rfl rfl rfl rfl rfl rfl (by decide) rfl rfl
  exact ⟨h.1, h.2.1⟩

/-- The events of `_decrypt_cipher_message` are at most one entry
zeroization (no store calls). -/
theorem dcm_events_cases (sm : SSModel σ) (s : Session σ) (env : Envelope)
    (m : CipherMessage) :
    (decrypt_cipher_message sm s env m).events = [] ∨
      ∃ k, (decrypt_cipher_message sm s env m).events = [Event.zeroizeEntry k] := by
  unfold decrypt_cipher_message
  rcases hl : lookupEntry s.session_states (SessionTag.name m.session_tag) with _ | entry
  · exact Or.inl rfl
  · dsimp only
    rcases hd : sm.decrypt (sm.deserialise (sm.serialise entry.state)) env m with e2 | pr
    · exact Or.inl rfl
    · dsimp only
      rcases hr : (insert_session_state { s with pending_prekey := none }
          m.session_tag pr.2).res with e3 | u
      · exact insert_events_cases _ _ _
      · exact insert_events_cases _ _ _

/-- Entry zeroizations are invisible to the store-event filters. -/
theorem zeroize_filters (A : List Event)
    (hA : A = [] ∨ ∃ k, A = [Event.zeroizeEntry k]) :
    A.filter Event.isDelete = [] ∧ A.filter Event.isZeroizePrekey = [] ∧
      A.filter Event.isLoad = [] := by
  rcases hA with h | ⟨k, h⟩ <;> subst h <;>
    simp [Event.isDelete, Event.isZeroizePrekey, Event.isLoad]

/-- Lemma: `init_from_message` on a last-resort prekey id issues no delete and no
prekey zeroization, and at most the one `_new_state` load. -/
theorem init_lastresort_silent (sm : SSModel σ) (stm : StoreModel τ)
    (ourId : IdentityKeyPair) (w : Wld τ) (env : Envelope) (m : PreKeyMessage)
    (hm : env.message = Message.prekey m) (hid : m.prekey_id = MAX_PREKEY_ID) :
    (init_from_message sm stm ourId w env).2.trace.filter Event.isDelete =
      w.trace.filter Event.isDelete ∧
    (init_from_message sm stm ourId w env).2.trace.filter Event.isZeroizePrekey =
      w.trace.filter Event.isZeroizePrekey ∧
    ((init_from_message sm stm ourId w env).2.trace.filter Event.isLoad =
        w.trace.filter Event.isLoad ∨
      (init_from_message sm stm ourId w env).2.trace.filter Event.isLoad =
        w.trace.filter Event.isLoad ++ [Event.loadPrekey m.prekey_id]) := by
  unfold init_from_message
  rw [hm]
  dsimp only
  unfold new_state
  dsimp only
  rcases hl : stm.load_prekey w.store m.prekey_id with ⟨lr | opk, lst⟩
  · refine ⟨?_, ?_, Or.inr ?_⟩ <;>
      simp [List.filter_append, Event.isDelete, Event.isZeroizePrekey, Event.isLoad]
  · rcases opk with _ | pk
    · refine ⟨?_, ?_, Or.inr ?_⟩ <;>
        simp [List.filter_append, Event.isDelete, Event.isZeroizePrekey, Event.isLoad]
    · dsimp only
      rcases hd : sm.decrypt (sm.init_as_bob
          (mkSession σ ourId m.identity_key m.message.session_tag none [] 1).local_identity
          pk.key_pair m.identity_key m.base_key) env m.message with e2 | pr
      · refine ⟨?_, ?_, Or.inr ?_⟩ <;>
          simp [List.filter_append, Event.isDelete, Event.isZeroizePrekey, Event.isLoad]
      · dsimp only
        have hnlt : ¬(m.prekey_id < MAX_PREKEY_ID) := by
          rw [hid]
          exact Nat.lt_irrefl _
        obtain ⟨hzd, hzz, hzl⟩ := zeroize_filters _
          (insert_events_cases (mkSession σ ourId m.identity_key m.message.session_tag none [] 1)
            m.message.session_tag pr.2)
        rcases hr : (insert_session_state
            (mkSession σ ourId m.identity_key m.message.session_tag none [] 1)
            m.message.session_tag pr.2).res with e3 | u
        · refine ⟨?_, ?_, Or.inr ?_⟩ <;>
            simp [List.filter_append, hzd, hzz, hzl, Event.isDelete, Event.isZeroizePrekey,
              Event.isLoad]
        · rw [if_neg hnlt]
          refine ⟨?_, ?_, Or.inr ?_⟩ <;>
            simp [List.filter_append, hzd, hzz, hzl, Event.isDelete, Event.isZeroizePrekey,
              Event.isLoad]

/-- Lemma: `Session.decrypt` on a last-resort prekey message issues no delete and
no prekey zeroization, and at most one recovery load. -/
theorem decrypt_lastresort_silent (sm : SSModel σ) (stm : StoreModel τ) (s : Session σ)
    (w : Wld τ) (env : Envelope) (m : PreKeyMessage)
    (hm : env.message = Message.prekey m) (hid : m.prekey_id = MAX_PREKEY_ID) :
    (Session.decrypt sm stm s w env).wld.trace.filter Event.isDelete =
      w.trace.filter Event.isDelete ∧
    (Session.decrypt sm stm s w env).wld.trace.filter Event.isZeroizePrekey =
      w.trace.filter Event.isZeroizePrekey ∧
    ((Session.decrypt sm stm s w env).wld.trace.filter Event.isLoad =
        w.trace.filter Event.isLoad ∨
      (Session.decrypt sm stm s w env).wld.trace.filter Event.isLoad =
        w.trace.filter Event.isLoad ++ [Event.loadPrekey m.prekey_id]) := by
  unfold Session.decrypt
  rw [hm]
  dsimp only
  by_cases hfp : IdentityKey.fingerprint m.identity_key =
      IdentityKey.fingerprint s.remote_identity
  · rw [if_neg (fun hc => hc hfp)]
    unfold decrypt_prekey_message
    dsimp only
    obtain ⟨hfd, hfz, hfl⟩ := zeroize_filters _ (dcm_events_cases sm s env m.message)
    rcases hf : (decrypt_cipher_message sm s env m.message).res with e0 | pt
    · dsimp only
      by_cases hrec : e0.isRecoverable = true
      · rw [if_pos hrec]
        unfold recover_prekey_message new_state
        dsimp only
        rcases hl : stm.load_prekey w.store m.prekey_id with ⟨lr | opk, lst⟩
        · refine ⟨?_, ?_, Or.inr ?_⟩ <;>
            simp [List.filter_append, hfd, hfz, hfl, Event.isDelete, Event.isZeroizePrekey,
              Event.isLoad]
        · rcases opk with _ | pk
          · refine ⟨?_, ?_, Or.inr ?_⟩ <;>
              simp [List.filter_append, hfd, hfz, hfl, Event.isDelete, Event.isZeroizePrekey,
                Event.isLoad]
          · dsimp only
            rcases hd : sm.decrypt (sm.init_as_bob
                (decrypt_cipher_message sm s env m.message).sess.local_identity pk.key_pair
                m.identity_key m.base_key) env m.message with e2 | pr
            · refine ⟨?_, ?_, Or.inr ?_⟩ <;>
                simp [List.filter_append, hfd, hfz, hfl, Event.isDelete, Event.isZeroizePrekey,
                  Event.isLoad]
            · dsimp only
              rw [if_neg (fun hc => hc hid)]
              obtain ⟨hrd, hrz, hrl⟩ := zeroize_filters _
                (insert_events_cases (decrypt_cipher_message sm s env m.message).sess
                  m.message.session_tag pr.2)
              rcases hr : (insert_session_state (decrypt_cipher_message sm s env m.message).sess
                  m.message.session_tag pr.2).res with e3 | u
              · refine ⟨?_, ?_, Or.inr ?_⟩ <;>
                  simp [List.filter_append, hfd, hfz, hfl, hrd, hrz, hrl, Event.isDelete,
                    Event.isZeroizePrekey, Event.isLoad]
              · refine ⟨?_, ?_, Or.inr ?_⟩ <;>
                  simp [List.filter_append, hfd, hfz, hfl, hrd, hrz, hrl, Event.isDelete,
                    Event.isZeroizePrekey, Event.isLoad]
      · rw [if_neg hrec]
        refine ⟨?_, ?_, Or.inl ?_⟩ <;> simp [List.filter_append, hfd, hfz, hfl]
    · dsimp only
      refine ⟨?_, ?_, Or.inl ?_⟩ <;> simp [List.filter_append, hfd, hfz, hfl]
  · rw [if_pos hfp]
    exact ⟨rfl, rfl, Or.inl rfl⟩

/-- Inserting into a session with an empty map emits no events (no
eviction can trigger). -/
theorem insert_empty_events (s : Session σ) (t : SessionTag) (st : σ)
    (h0 : s.session_states = []) :
    (insert_session_state s t st).events = [] := by
  unfold insert_session_state
  dsimp only
  have hlen := insertPromote_length_le s t st
  rw [h0] at hlen
  simp only [List.length_nil] at hlen
  rw [if_pos (by unfold MAX_SESSION_STATES; omega)]

/-- The consumption stage of `init_from_message`: load, zeroize, delete in
order (zeroize even if delete fails), delete failure wrapped as
`PrekeyNotFound(CASE_203)`. -/
theorem init_consumption (sm : SSModel σ) (stm : StoreModel τ) (ourId : IdentityKeyPair)
    (w : Wld τ) (env : Envelope) (m : PreKeyMessage) (pk : PreKey) (st1 : τ)
    (pt : Bytes) (stx : σ) (opk : Option PreKey) (st3 : τ)
    (hm : env.message = Message.prekey m)
    (hlt : m.prekey_id < MAX_PREKEY_ID)
    (hload : stm.load_prekey w.store m.prekey_id = (.ok (some pk), st1))
    (hdec : sm.decrypt (sm.init_as_bob ourId pk.key_pair m.identity_key m.base_key) env
      m.message = .ok (pt, stx))
    (hload2 : stm.load_prekey st1 m.prekey_id = (.ok opk, st3)) :
    (init_from_message sm stm ourId w env).2.trace =
      w.trace ++ [Event.loadPrekey m.prekey_id, Event.loadPrekey m.prekey_id,
        Event.zeroizePrekey m.prekey_id, Event.deletePrekey m.prekey_id] ∧
    (∀ (e2 : PErr) (dst : τ), stm.delete_prekey st3 m.prekey_id = (.error e2, dst) →
      (init_from_message sm stm ourId w env).1 = .error (PErr.prekeyNotFound 203)) ∧
    (∀ dst : τ, stm.delete_prekey st3 m.prekey_id = (.ok (), dst) →
      ∃ s2 : Session σ, (init_from_message sm stm ourId w env).1 = .ok (s2, pt)) := by
  have hwf : WfKeys (mkSession σ ourId m.identity_key m.message.session_tag none [] 1) :=
    List.nodup_nil
  have hok := insert_res_ok (mkSession σ ourId m.identity_key m.message.session_tag none [] 1)
    m.message.session_tag stx hwf
  have hev := insert_empty_events (mkSession σ ourId m.identity_key m.message.session_tag none [] 1)
    m.message.session_tag stx rfl
  unfold init_from_message
  rw [hm]
  dsimp only
  unfold new_state
  dsimp only
  rw [show (mkSession σ ourId m.identity_key m.message.session_tag none [] 1).local_identity
      = ourId from rfl]
  rw [hload]
  dsimp only
  rw [hdec]
  dsimp only
  rw [hok]
  dsimp only
  rw [hev, if_pos hlt, hload2]
  dsimp only
  refine ⟨?_, ?_, ?_⟩
  · rcases hdd : (stm.delete_prekey st3 m.prekey_id).1 with dr | du <;> simp
  · intro e2 dst hde
    rw [hde]
  · intro dst hde
    rw [hde]
    exact ⟨_, rfl⟩

/-- The consumption stage of the recovery branch: load, zeroize, delete in
order; a delete failure propagates the raw store error. -/
theorem recover_consumption (sm : SSModel σ) (stm : StoreModel τ) (s : Session σ)
    (w : Wld τ) (env : Envelope) (m : PreKeyMessage) (e0 e2 : PErr) (pk : PreKey)
    (st1 : τ) (pt : Bytes) (stx : σ) (opk : Option PreKey) (st3 dst : τ)
    (h : WfKeys s)
    (hm : env.message = Message.prekey m)
    (hfp : IdentityKey.fingerprint m.identity_key = IdentityKey.fingerprint s.remote_identity)
    (hf : (decrypt_cipher_message sm s env m.message).res = .error e0)
    (hrec : e0.isRecoverable = true)
    (hid : m.prekey_id ≠ MAX_PREKEY_ID)
    (hload : stm.load_prekey w.store m.prekey_id = (.ok (some pk), st1))
    (hdec : sm.decrypt (sm.init_as_bob s.local_identity pk.key_pair m.identity_key m.base_key)
      env m.message = .ok (pt, stx))
    (hload2 : stm.load_prekey st1 m.prekey_id = (.ok opk, st3))
    (hdel : stm.delete_prekey st3 m.prekey_id = (.error e2, dst)) :
    (Session.decrypt sm stm s w env).res = .error e2 ∧
      (Session.decrypt sm stm s w env).wld.trace =
        w.trace ++ [Event.loadPrekey m.prekey_id, Event.loadPrekey m.prekey_id,
          Event.zeroizePrekey m.prekey_id, Event.deletePrekey m.prekey_id] := by
  obtain ⟨hfs, hevs⟩ := dcm_err sm s env m.message e0 h hf
  unfold Session.decrypt
  rw [hm]
  dsimp only
  rw [if_neg (fun hc => hc hfp)]
  unfold decrypt_prekey_message
  dsimp only
  rw [hf]
  dsimp only
  rw [if_pos hrec, hfs, hevs]
  unfold recover_prekey_message new_state
  dsimp only
  rw [hload]
  dsimp only
  rw [hdec]
  dsimp only
  rw [if_pos hid, hload2]
  dsimp only
  rw [hdel]
  dsimp only
  refine ⟨rfl, ?_⟩
  simp

/-- C6: on both prekey-consumption paths the store interaction for a
non-last-resort id is load, zeroize, then delete, with the zeroize emitted
even when the delete fails; the last-resort prekey is never zeroized or
deleted (and only the derivation load ever touches it); a delete failure is
wrapped as `PrekeyNotFound(CASE_203)` in `init_from_message` but propagates
raw in the recovery branch. -/
theorem prekey_consumption_protocol (sm : SSModel σ) (stm : StoreModel τ) (w : Wld τ)
    (env : Envelope) (m : PreKeyMessage)
    (hm : env.message = Message.prekey m)
    (hu16 : m.prekey_id ≤ MAX_PREKEY_ID) :
    (m.prekey_id = MAX_PREKEY_ID →
      (∀ ourId : IdentityKeyPair,
        (init_from_message sm stm ourId w env).2.trace.filter Event.isDelete =
          w.trace.filter Event.isDelete ∧
        (init_from_message sm stm ourId w env).2.trace.filter Event.isZeroizePrekey =
          w.trace.filter Event.isZeroizePrekey ∧
        ((init_from_message sm stm ourId w env).2.trace.filter Event.isLoad =
            w.trace.filter Event.isLoad ∨
          (init_from_message sm stm ourId w env).2.trace.filter Event.isLoad =
            w.trace.filter Event.isLoad ++ [Event.loadPrekey m.prekey_id])) ∧
      (∀ s : Session σ,
        (Session.decrypt sm stm s w env).wld.trace.filter Event.isDelete =
          w.trace.filter Event.isDelete ∧
        (Session.decrypt sm stm s w env).wld.trace.filter Event.isZeroizePrekey =
          w.trace.filter Event.isZeroizePrekey ∧
        ((Session.decrypt sm stm s w env).wld.trace.filter Event.isLoad =
            w.trace.filter Event.isLoad ∨
          (Session.decrypt sm stm s w env).wld.trace.filter Event.isLoad =
            w.trace.filter Event.isLoad ++ [Event.loadPrekey m.prekey_id]))) ∧
    (m.prekey_id ≠ MAX_PREKEY_ID →
      ∀ (ourId : IdentityKeyPair) (pk : PreKey) (st1 : τ) (pt : Bytes) (stx : σ)
        (opk : Option PreKey) (st3 : τ),
        stm.load_prekey w.store m.prekey_id = (.ok (some pk), st1) →
        sm.decrypt (sm.init_as_bob ourId pk.key_pair m.identity_key m.base_key) env
          m.message = .ok (pt, stx) →
        stm.load_prekey st1 m.prekey_id = (.ok opk, st3) →
        (init_from_message sm stm ourId w env).2.trace =
          w.trace ++ [Event.loadPrekey m.prekey_id, Event.loadPrekey m.prekey_id,
            Event.zeroizePrekey m.prekey_id, Event.deletePrekey m.prekey_id] ∧
        (∀ (e2 : PErr) (dst : τ), stm.delete_prekey st3 m.prekey_id = (.error e2, dst) →
          (init_from_message sm stm ourId w env).1 = .error (PErr.prekeyNotFound 203)) ∧
        (∀ dst : τ, stm.delete_prekey st3 m.prekey_id = (.ok (), dst) →
          ∃ s2 : Session σ, (init_from_message sm stm ourId w env).1 = .ok (s2, pt))) ∧
    (m.prekey_id ≠ MAX_PREKEY_ID →
      ∀ (s : Session σ) (e0 e2 : PErr) (pk : PreKey) (st1 : τ) (pt : Bytes) (stx : σ)
        (opk : Option PreKey) (st3 dst : τ),
        WfKeys s →
        IdentityKey.fingerprint m.identity_key = IdentityKey.fingerprint s.remote_identity →
        (decrypt_cipher_message sm s env m.message).res = .error e0 →
        e0.isRecoverable = true →
        stm.load_prekey w.store m.prekey_id = (.ok (some pk), st1) →
        sm.decrypt (sm.init_as_bob s.local_identity pk.key_pair m.identity_key m.base_key)
          env m.message = .ok (pt, stx) →
        stm.load_prekey st1 m.prekey_id = (.ok opk, st3) →
        stm.delete_prekey st3 m.prekey_id = (.error e2, dst) →
        (Session.decrypt sm stm s w env).res = .error e2 ∧
          (Session.decrypt sm stm s w env).wld.trace =
            w.trace ++ [Event.loadPrekey m.prekey_id, Event.loadPrekey m.prekey_id,
              Event.zeroizePrekey m.prekey_id, Event.deletePrekey m.prekey_id]) := by
  refine ⟨fun hid => ⟨fun ourId => init_lastresort_silent sm stm ourId w env m hm hid,
    fun s => decrypt_lastresort_silent sm stm s w env m hm hid⟩, ?_, ?_⟩
  · intro hneq ourId pk st1 pt stx opk st3 hload hdec hload2
    exact init_consumption sm stm ourId w env m pk st1 pt stx opk st3 hm
      (Nat.lt_of_le_of_ne hu16 hneq) hload hdec hload2
  · intro hneq s e0 e2 pk st1 pt stx opk st3 dst h hfp hf hrec hload hdec hload2 hdel
    exact recover_consumption sm stm s w env m e0 e2 pk st1 pt stx opk st3 dst h hm hfp hf
      hrec hneq hload hdec hload2 hdel

theorem prekey_consumption_protocol_witness :
    env5.message = Message.prekey m5 ∧
      m5.prekey_id ≤ MAX_PREKEY_ID ∧
      (init_from_message toySM toyStore idPairL w0 env5).2.trace =
        w0.trace ++ [Event.loadPrekey 3, Event.loadPrekey 3, Event.zeroizePrekey 3,
          Event.deletePrekey 3] := by
  have h := (prekey_consumption_protocol toySM toyStore w0 env5 m5 rfl (by decide)).2.1
    (by decide) idPairL (PreKey.mk 3 (KeyPair.mk (PublicKey.mk 0))) () [7] 8
    (some (PreKey.mk 3 (KeyPair.mk (PublicKey.mk 0)))) () rfl rfl rfl
  exact ⟨rfl, by decide, h.1⟩

/-- The tag-5 loop of `Session.decode` rebuilds exactly the encoded entries
(with `idx` reassigned from the iteration index), consuming exactly the
encoded tokens. -/
theorem decodeStates_spec (sm : SSModel σ)
    (hrt : ∀ st : σ, sm.deserialise (sm.serialise st) = st)
    (l : List (Nat × StateEntry σ)) :
    ∀ (i : Nat) (acc : List (Nat × StateEntry σ)) (rest : List (Tok σ)),
      (∀ p ∈ l, SessionTag.name p.2.tag = p.1) →
      (l.map Prod.fst).Nodup →
      (∀ k ∈ l.map Prod.fst, hasKey acc k = false) →
      decodeStates sm l.length i
        ((l.map (fun p => [Tok.tagTok p.2.tag, Tok.ssTok (sm.serialise p.2.state)])).flatten
          ++ rest) acc = .ok (acc ++ reindexFrom i l, rest) := by
  induction l with
  | nil =>
    intro i acc rest _ _ _
    simp [decodeStates, reindexFrom]
  | cons p l ih =>
    intro i acc rest hkeys hnd hfresh
    simp only [List.map_cons, List.flatten_cons, List.cons_append, List.append_assoc,
      List.length_cons]
    show decodeStates sm (l.length + 1) i
      (Tok.tagTok p.2.tag :: Tok.ssTok (sm.serialise p.2.state) ::
        ((l.map (fun q => [Tok.tagTok q.2.tag, Tok.ssTok (sm.serialise q.2.state)])).flatten
          ++ rest)) acc = _
    unfold decodeStates
    simp only [readTag, readSS]
    rw [hrt p.2.state]
    rw [hkeys p (List.mem_cons_self _ _)]
    have hfp : hasKey acc p.1 = false :=
      hfresh p.1 (by rw [List.map_cons]; exact List.mem_cons_self _ _)
    rw [if_neg (show ¬(hasKey acc p.1 = true) by simp [hfp])]
    have hkeys2 : ∀ q ∈ l, SessionTag.name q.2.tag = q.1 := by
      intro q hq
      exact hkeys q (List.mem_cons.mpr (Or.inr hq))
    have hnd2 : (l.map Prod.fst).Nodup := by
      rw [List.map_cons, List.nodup_cons] at hnd
      exact hnd.2
    have hfresh2 : ∀ k ∈ l.map Prod.fst,
        hasKey (acc ++ [(p.1, StateEntry.mk i p.2.state p.2.tag)]) k = false := by
      intro k hk
      unfold hasKey
      rw [List.any_append]
      have h1 : acc.any (fun q => q.1 == k) = false := hfresh k (by
        rw [List.map_cons]
        exact List.mem_cons.mpr (Or.inr hk))
      have hpk : p.1 ≠ k := by
        rw [List.map_cons, List.nodup_cons] at hnd
        intro he
        exact hnd.1 (he ▸ hk)
      have h2 : ([(p.1, StateEntry.mk i p.2.state p.2.tag)]).any (fun q => q.1 == k) = false := by
        simp [hpk]
      simp [h1, h2]
    have := ih (i + 1) (acc ++ [(p.1, StateEntry.mk i p.2.state p.2.tag)]) rest
      hkeys2 hnd2 hfresh2
    rw [this]
    rw [show reindexFrom i (p :: l) =
        (p.1, StateEntry.mk i p.2.state p.2.tag) :: reindexFrom (i + 1) l from rfl]
    rw [List.append_assoc, List.singleton_append]

/-- C3: `deserialise (local, serialise S)` reproduces `S` exactly up to the
`idx` fields of the state entries (reassigned from iteration order) and the
private `counter` (not serialised, restarted at 0 by the constructor):
version, session tag, identities, pending prekey, and the states map with
its keys, tags, states and insertion order are all preserved, and the whole
token stream is consumed. -/
theorem session_roundtrip (sm : SSModel σ) (ftag : SessionTag) (s : Session σ)
    (hrt : ∀ st : σ, sm.deserialise (sm.serialise st) = st)
    (hkeys : ∀ p ∈ s.session_states, SessionTag.name p.2.tag = p.1)
    (hnd : WfKeys s) :
    Session.decode sm ftag s.local_identity (Session.encode sm s) =
      .ok ({ s with
              counter := 0,
              session_tag_name := SessionTag.name s.session_tag,
              session_states := reindexFrom 0 s.session_states }, []) := by
  have hst := decodeStates_spec sm hrt s.session_states 0 [] [] hkeys hnd
    (fun k _ => rfl)
  rw [List.append_nil, List.nil_append] at hst
  unfold Session.encode Session.decode
  rcases hpp : s.pending_prekey with _ | pp <;>
    simp [readObj, decodeProps, readUint, readTag, readIk, readPk, readOptObj,
      readPendingKey, pendingOfPair, hst, mkSession, Option.getD]

theorem session_roundtrip_witness :
    (∀ st : Nat, toySM.deserialise (toySM.serialise st) = st) ∧
      (∀ p ∈ sessOne.session_states, SessionTag.name p.2.tag = p.1) ∧
      WfKeys sessOne ∧
      Session.decode toySM tagB sessOne.local_identity (Session.encode toySM sessOne) =
        .ok ({ sessOne with
                counter := 0,
                session_tag_name := SessionTag.name sessOne.session_tag,
                session_states := reindexFrom 0 sessOne.session_states }, []) := by
  have h1 : ∀ st : Nat, toySM.deserialise (toySM.serialise st) = st := fun st => rfl
  have h2 : ∀ p ∈ sessOne.session_states, SessionTag.name p.2.tag = p.1 := by decide
  have h3 : WfKeys sessOne := by unfold WfKeys; decide
  exact ⟨h1, h2, h3, session_roundtrip toySM tagB sessOne h1 h2 h3⟩

/-- Replacing a state value keeps the `idx` of every entry. -/
theorem setEntryState_idx (l : List (Nat × StateEntry σ)) (k : Nat) (st : σ) :
    ∀ p ∈ setEntryState l k st, ∃ q ∈ l, p.2.idx = q.2.idx := by
  intro p hp
  unfold setEntryState at hp
  rcases List.mem_map.mp hp with ⟨q, hq, hfq⟩
  refine ⟨q, hq, ?_⟩
  rw [← hfq]
  by_cases h : (q.1 == k) = true <;> simp [h]

theorem insertPromote_idx (s : Session σ) (t : SessionTag) (st : σ) (h : IdxInv s) :
    IdxInv (insertPromote s t st) := by
  unfold IdxInv at h ⊢
  unfold insertPromote
  rw [promoteTag_states, promoteTag_counter]
  unfold insertEntry
  dsimp only
  split
  · intro p hp
    dsimp only at hp ⊢
    obtain ⟨q, hq, he⟩ := setEntryState_idx s.session_states (SessionTag.name t) st p hp
    rw [he]
    exact h q hq
  · split
    · intro p hp
      simp only [List.nil_append, List.mem_singleton] at hp
      subst hp
      exact Nat.lt_succ_self _
    · intro p hp
      rcases List.mem_append.mp hp with h1 | h1
      · exact Nat.lt_succ_of_lt (h p h1)
      · simp only [List.mem_singleton] at h1
        subst h1
        exact Nat.lt_succ_self _

theorem insertPromote_counter_ge (s : Session σ) (t : SessionTag) (st : σ)
    (h : s.counter < MAX_SAFE_INTEGER) :
    s.counter ≤ (insertPromote s t st).counter := by
  unfold insertPromote
  rw [promoteTag_counter]
  unfold insertEntry
  dsimp only
  split
  · exact Nat.le_refl _
  · split
    · next ho => exact absurd ho (Nat.not_le_of_lt h)
    · exact Nat.le_succ _

theorem insert_idx_inv (s : Session σ) (t : SessionTag) (st : σ) (h : IdxInv s) :
    IdxInv (insert_session_state s t st).sess := by
  unfold insert_session_state
  dsimp only
  split
  · exact insertPromote_idx s t st h
  · intro p hp
    rw [evict_oldest_counter]
    rcases hcand : ((insertPromote s t st).session_states.map Prod.fst).filter
        (fun k => k != (insertPromote s t st).session_tag_name) with _ | ⟨c, cs⟩
    · rw [evict_oldest_of_empty _ hcand] at hp
      exact insertPromote_idx s t st h p hp
    · obtain ⟨_, hsess, _⟩ := evict_oldest_of_nonempty _ c cs hcand
      rw [hsess] at hp
      dsimp only at hp
      exact insertPromote_idx s t st h p (List.mem_of_mem_filter hp)

theorem insert_counter_mono (s : Session σ) (t : SessionTag) (st : σ)
    (h : s.counter < MAX_SAFE_INTEGER) :
    s.counter ≤ (insert_session_state s t st).sess.counter := by
  unfold insert_session_state
  dsimp only
  split
  · exact insertPromote_counter_ge s t st h
  · rw [evict_oldest_counter]
    exact insertPromote_counter_ge s t st h

theorem dcm_idx_inv (sm : SSModel σ) (s : Session σ) (env : Envelope) (m : CipherMessage)
    (h : IdxInv s) : IdxInv (decrypt_cipher_message sm s env m).sess := by
  unfold decrypt_cipher_message
  rcases hl : lookupEntry s.session_states (SessionTag.name m.session_tag) with _ | entry
  · exact h
  · dsimp only
    rcases hd : sm.decrypt (sm.deserialise (sm.serialise entry.state)) env m with e2 | pr
    · exact h
    · dsimp only
      rcases hr : (insert_session_state { s with pending_prekey := none }
          m.session_tag pr.2).res with e3 | u
      · exact insert_idx_inv _ _ _ h
      · exact insert_idx_inv _ _ _ h

theorem recover_idx_inv (sm : SSModel σ) (stm : StoreModel τ) (s : Session σ) (w : Wld τ)
    (env : Envelope) (m : PreKeyMessage) (h : IdxInv s) :
    IdxInv (recover_prekey_message sm stm s w env m).sess := by
  unfold recover_prekey_message
  rcases hn : new_state sm stm s w m with ⟨e1 | st1, w1⟩
  · exact h
  · dsimp only
    rcases hd : sm.decrypt st1 env m.message with e2 | pr
    · exact h
    · dsimp only
      have hcommit : IdxInv (insert_session_state s m.message.session_tag pr.2).sess :=
        insert_idx_inv _ _ _ h
      by_cases hid : m.prekey_id = MAX_PREKEY_ID
      · rw [if_neg (fun hc => hc hid)]
        rcases hr : (insert_session_state s m.message.session_tag pr.2).res with e3 | u
        · exact hcommit
        · exact hcommit
      · rw [if_pos hid]
        rcases hl2 : stm.load_prekey w1.store m.prekey_id with ⟨lr | opk, lst⟩
        · exact h
        · dsimp only
          rcases hdel : stm.delete_prekey lst m.prekey_id with ⟨dr | du, dst⟩
          · exact h
          · dsimp only
            rcases hr : (insert_session_state s m.message.session_tag pr.2).res with e3 | u
            · exact hcommit
            · exact hcommit

theorem decrypt_idx_inv (sm : SSModel σ) (stm : StoreModel τ) (s : Session σ) (w : Wld τ)
    (env : Envelope) (h : IdxInv s) : IdxInv (Session.decrypt sm stm s w env).sess := by
  unfold Session.decrypt
  rcases hm : env.message with m | m | _
  · dsimp only
    exact dcm_idx_inv sm s env m h
  · dsimp only
    by_cases hfp : IdentityKey.fingerprint m.identity_key =
        IdentityKey.fingerprint s.remote_identity
    · rw [if_neg (fun hc => hc hfp)]
      unfold decrypt_prekey_message
      dsimp only
      rcases hf : (decrypt_cipher_message sm s env m.message).res with e0 | pt
      · dsimp only
        have h2 := dcm_idx_inv sm s env m.message h
        by_cases hrec : e0.isRecoverable = true
        · rw [if_pos hrec]
          exact recover_idx_inv sm stm _ _ env m h2
        · rw [if_neg hrec]
          exact h2
      · dsimp only
        exact dcm_idx_inv sm s env m.message h
    · rw [if_pos hfp]
      exact h
  · exact h

theorem encrypt_idx_inv (sm : SSModel σ) (s : Session σ) (pt : Bytes) (h : IdxInv s) :
    IdxInv (Session.encrypt sm s pt).2 := by
  unfold Session.encrypt
  rcases hl : lookupEntry s.session_states s.session_tag_name with _ | entry
  · exact h
  · dsimp only
    rcases hc : sm.encrypt entry.state s.local_identity.public_key s.pending_prekey
        s.session_tag pt with e | pr
    · exact h
    · intro p hp
      dsimp only at hp ⊢
      obtain ⟨q, hq, he⟩ := setEntryState_idx s.session_states s.session_tag_name pr.2 p hp
      rw [he]
      exact h q hq

theorem reachable_idx_inv (sm : SSModel σ) (s : Session σ) (hr : Reachable sm s) :
    IdxInv s := by
  induction hr with
  | init s h =>
    intro p hp
    rw [h] at hp
    simp at hp
  | insertStep s t st _ ih => exact insert_idx_inv s t st ih
  | encryptStep s pt _ ih => exact encrypt_idx_inv sm s pt ih
  | decryptStep stm s w env _ ih => exact decrypt_idx_inv sm stm s w env ih

/-- C4 counterexample: decoding the serialisation of a session with one
state entry yields a session whose entry has `idx = 0` while the
constructor reset `counter` to 0, so `idx < counter` fails for the decoded
session even though decode assigned `idx` from iteration order. -/
theorem idx_counter_decode_cex :
    Session.decode toySM tagB idPairL (Session.encode toySM sessOne) =
      .ok ({ sessOne with counter := 0 }, []) ∧
      ¬(∀ p ∈ ({ sessOne with counter := 0 } : Session Nat).session_states,
          p.2.idx < ({ sessOne with counter := 0 } : Session Nat).counter) := by
  constructor
  · rfl
  · decide

/-- C4 (amended): in every session reachable through the constructor-based
factories and the encrypt/decrypt/insert operations (that is, without
`Session.decode`, which resets `counter` to 0 while seeding entries with
iteration-order `idx` values), the `idx` of each entry is strictly less than the
private `counter`; and the counter is non-decreasing across
`_insert_session_state` except for the controlled reset at its
representational maximum. -/
theorem idx_lt_counter_amended (sm : SSModel σ) :
    (∀ s : Session σ, Reachable sm s → IdxInv s) ∧
      (∀ (s : Session σ) (t : SessionTag) (st : σ),
        s.counter < MAX_SAFE_INTEGER →
        s.counter ≤ (insert_session_state s t st).sess.counter) :=
  ⟨fun s hr => reachable_idx_inv sm s hr,
    fun s t st h => insert_counter_mono s t st h⟩

theorem idx_lt_counter_amended_witness :
    Reachable toySM sessEmpty ∧ IdxInv sessEmpty ∧
      sessEmpty.counter < MAX_SAFE_INTEGER ∧
      sessEmpty.counter ≤ (insert_session_state sessEmpty tagB 5).sess.counter := by
  have hr : Reachable toySM sessEmpty := Reachable.init sessEmpty rfl
  refine ⟨hr, (idx_lt_counter_amended toySM).1 sessEmpty hr, by decide, ?_⟩
  exact (idx_lt_counter_amended toySM).2 sessEmpty tagB 5 (by decide)

end ProteusSession
